import Mathlib

/-!
# smoked-heart: the grid, boundary and rendering code of `src/main.c`

A shallow embedding of the functions of `src/main.c` (`convolution`, `clamp`,
`draw_dens`, `load_rgba`, `image_scale`, `alpha_to_array2f`, `flow`,
`array2f_fill`, `box_bounds`, `threshold`, `bounds_from_image` and the lines of
`main` that build the boundary model), and the properties proved about them.

Conventions of the embedding.

* A C `float` cell is a value of a type parameter `α`; the arithmetic a
  function performs on cells is supplied by type classes, and is exact.
  Every number the boundary code computes (`0`, `1`, `-1`, an alpha value
  `0..255`, a difference of two mask values) is a small integer, which
  binary32 represents exactly. The densities that `draw_dens` renders are
  rational numbers. The arithmetic of `flow` on its random values is a
  parameter of the model, the operations of the machine with their rounding.
* A `size_t` is a natural number below `2 ^ 64`; subtraction, addition and
  multiplication wrap. The index `x + y * stride` of a cell is not reduced:
  on a grid that satisfies the data-model invariant it is below `2 ^ 64`.
* A call returns `Except fault _`: a failed `assert`, an access outside a
  buffer or an overflowing `int` counter ends the run with the `fault`. The
  build modelled is the one with assertions enabled. A conversion of a `float`
  that C leaves undefined does not end the run: it gives a number of which
  nothing is assumed.
* A buffer is a `List`; a function that writes through a pointer returns the
  updated value, and two grids or images passed to one call are distinct.
* The headers `array2f.h`, `color.h` and `image.h` are not part of the sources
  at hand: what the code uses of them is modelled from the specification, and
  marked so.
-/

namespace SmokedHeart

deriving instance DecidableEq for Except

/-- Why a run stops before the function returns. -/
inductive fault where
  /-- an `assert` written in the function of `main.c` itself fails -/
  | assertion
  /-- the bounds assertion of `array2f_get` / `array2f_set` fails -/
  | bounds
  /-- a read or write outside the buffer -/
  | memory
  /-- an `int` loop counter is incremented past `INT_MAX` -/
  | overflow
  deriving DecidableEq, Repr

/-- Largest value of a `size_t`. -/
def SIZE_MAX : Nat := 2 ^ 64 - 1

/-- Largest value of an `int`. -/
def INT_MAX : Nat := 2 ^ 31 - 1

/-- The `size_t` difference `a - b`, which wraps below zero. -/
def size_sub (a b : Nat) : Nat := (a + 2 ^ 64 - b) % 2 ^ 64

/-- The `size_t` sum `a + b`, which wraps at `2 ^ 64`. -/
def size_add (a b : Nat) : Nat := (a + b) % 2 ^ 64

/-- The loop `for (c = ...; c < hi; c++) body`, with `n` iterations left and the
counter at `c`; `top` is the largest value of the counter's type. -/
def for_loop {σ : Type} (top : Nat) (body : Nat → σ → Except fault σ) :
    Nat → Nat → σ → Except fault σ
  | 0, c, s => if c ≤ top then Except.ok s else Except.error fault.overflow
  | n + 1, c, s =>
    if c ≤ top then
      match body c s with
      | Except.ok s' => for_loop top body n (c + 1) s'
      | Except.error e => Except.error e
    else Except.error fault.overflow

/-- The loop `for (c = lo; c < hi; c++) body` from state `s`. -/
def for_range {σ : Type} (top lo hi : Nat) (body : Nat → σ → Except fault σ) (s : σ) :
    Except fault σ :=
  for_loop top body (hi - lo) lo s

/-- The `resolution_t` of a grid or an image. -/
structure resolution_t where
  width : Nat
  height : Nat
  deriving DecidableEq, Repr

/-- The grid type `array2f`: `{resolution, stride, buffer}`. -/
structure array2f (α : Type) where
  resolution : resolution_t
  stride : Nat
  buffer : List α
  deriving DecidableEq, Repr

/-- The data-model invariant of a grid: `stride >= width`, the buffer has
`stride * height` cells, and the sizes are `size_t` values. -/
def array2f.wf {α : Type} (a : array2f α) : Prop :=
  a.resolution.width ≤ a.stride ∧
  a.buffer.length = a.stride * a.resolution.height ∧
  a.resolution.width < 2 ^ 64 ∧ a.resolution.height < 2 ^ 64 ∧
  a.stride * a.resolution.height < 2 ^ 64

instance {α : Type} (a : array2f α) : Decidable a.wf := by
  unfold array2f.wf; infer_instance

/-- Modelled from the spec: `array2f_get` of `array2f.h`, which is not under
src. Cell `(x, y)` is `buffer[x + y * stride]`, and the access fails (assertion)
when `x >= width || y >= height`. -/
def array2f_get {α : Type} (a : array2f α) (x y : Nat) : Except fault α :=
  if x < a.resolution.width ∧ y < a.resolution.height then
    match a.buffer[x + y * a.stride]? with
    | some v => Except.ok v
    | none => Except.error fault.memory
  else Except.error fault.bounds

/-- Modelled from the spec: `array2f_set` of `array2f.h`, which is not under
src. Cell `(x, y)` is `buffer[x + y * stride]`, and the access fails (assertion)
when `x >= width || y >= height`. -/
def array2f_set {α : Type} (a : array2f α) (x y : Nat) (value : α) :
    Except fault (array2f α) :=
  if x < a.resolution.width ∧ y < a.resolution.height then
    if x + y * a.stride < a.buffer.length then
      Except.ok { a with buffer := a.buffer.set (x + y * a.stride) value }
    else Except.error fault.memory
  else Except.error fault.bounds

/-- The pair of boundary grids `bounds_t`: `{bx, by}` (`by` is a keyword of Lean,
so the field is `by_`). -/
structure bounds_t (α : Type) where
  bx : array2f α
  by_ : array2f α
  deriving DecidableEq, Repr

/-- The call `array2f_set(&bounds->bx, x, y, value)`. -/
def set_bx {α : Type} (bounds : bounds_t α) (x y : Nat) (value : α) :
    Except fault (bounds_t α) :=
  match array2f_set bounds.bx x y value with
  | Except.ok g => Except.ok { bounds with bx := g }
  | Except.error e => Except.error e

/-- The call `array2f_set(&bounds->by, x, y, value)`. -/
def set_by {α : Type} (bounds : bounds_t α) (x y : Nat) (value : α) :
    Except fault (bounds_t α) :=
  match array2f_set bounds.by_ x y value with
  | Except.ok g => Except.ok { bounds with by_ := g }
  | Except.error e => Except.error e

/-- Body of the first loop of `box_bounds`: the left and right edge of row `j`. -/
def box_bounds_row {α : Type} [Zero α] [One α] [Neg α] (w : Nat) (j : Nat)
    (bounds : bounds_t α) : Except fault (bounds_t α) := do
  let b ← set_bx bounds 0 j 1
  let b ← set_by b 0 j 0
  let b ← set_bx b (size_sub w 1) j (-1)
  set_by b (size_sub w 1) j 0

/-- Body of the second loop of `box_bounds`: the top and bottom edge of column `i`. -/
def box_bounds_column {α : Type} [Zero α] [One α] [Neg α] (h : Nat) (i : Nat)
    (bounds : bounds_t α) : Except fault (bounds_t α) := do
  let b ← set_bx bounds i 0 0
  let b ← set_by b i 0 1
  let b ← set_bx b i (size_sub h 1) 0
  set_by b i (size_sub h 1) (-1)

/-- The function `box_bounds` of `main.c`. -/
def box_bounds {α : Type} [Zero α] [One α] [Neg α] (bounds : bounds_t α) :
    Except fault (bounds_t α) := do
  let w := bounds.bx.resolution.width
  let h := bounds.bx.resolution.height
  let b ← for_range SIZE_MAX 1 (size_sub h 1) (box_bounds_row w) bounds
  for_range SIZE_MAX 1 (size_sub w 1) (box_bounds_column h) b

/-! ## Images and the obstacle silhouette -/

/-- Modelled from the spec: `color_t` of `color.h`, which is not under src. A
packed 32-bit colour is taken as its four 8-bit channels; where each channel
sits in the word is left open. -/
structure color_t where
  red : Fin 256
  green : Fin 256
  blue : Fin 256
  alpha : Fin 256
  deriving DecidableEq, Repr

/-- Modelled from the spec: `get_alpha` of `color.h`, which is not under src:
the alpha channel of a colour. -/
def get_alpha (color : color_t) : Nat := color.alpha.val

/-- Modelled from the spec: the type `image` of `image.h`, which is not under
src: a rectangular buffer of packed pixels with its own stride. -/
structure image where
  resolution : resolution_t
  stride : Nat
  buffer : List color_t
  deriving DecidableEq, Repr

/-- The data-model invariant of an image, as for a grid. -/
def image.wf (im : image) : Prop :=
  im.resolution.width ≤ im.stride ∧
  im.buffer.length = im.stride * im.resolution.height ∧
  im.resolution.width < 2 ^ 64 ∧ im.resolution.height < 2 ^ 64 ∧
  im.stride * im.resolution.height < 2 ^ 64

instance (im : image) : Decidable im.wf := by
  unfold image.wf; infer_instance

/-- Modelled from the spec: `image_width` of `image.h`, which is not under src. -/
def image_width (im : image) : Nat := im.resolution.width

/-- Modelled from the spec: `image_height` of `image.h`, which is not under src. -/
def image_height (im : image) : Nat := im.resolution.height

/-- Modelled from the spec: `image_pixel` of `image.h`, which is not under src:
pixel `(x, y)` is `buffer[x + y * stride]`. -/
def image_pixel (im : image) (x y : Nat) : Except fault color_t :=
  match im.buffer[x + y * im.stride]? with
  | some c => Except.ok c
  | none => Except.error fault.memory

/-- Modelled from the spec: `create_array2f` of `array2f.h`, which is not under
src: a zero-initialised grid with `stride >= width`; the stride is taken to be
the width. -/
def create_array2f {α : Type} [Zero α] (width height : Nat) : array2f α :=
  { resolution := { width := width, height := height }, stride := width,
    buffer := List.replicate (width * height) 0 }

/-- Modelled from the spec: `array2f_filter` of `array2f.h`, which is not under
src: `fn` is applied in place to every logical cell, and to no cell of the
stride padding. -/
def array2f_filter {α : Type} (a : array2f α) (fn : α → α) : array2f α :=
  { a with buffer := a.buffer.mapIdx (fun k v =>
      if k % a.stride < a.resolution.width ∧ k / a.stride < a.resolution.height
      then fn v else v) }

/-- The function `alpha_to_array2f` of `main.c`; the alpha value is converted
to a cell value by the call of `array2f_set`. -/
def alpha_to_array2f {α : Type} [NatCast α] (im : image) (array : array2f α) :
    Except fault (array2f α) :=
  for_range SIZE_MAX 0 (image_height im) (fun y a =>
    for_range SIZE_MAX 0 (image_width im) (fun x a => do
      let color ← image_pixel im x y
      array2f_set a x y ((get_alpha color : Nat) : α)) a) array

/-- The function `threshold` of `main.c`. -/
def threshold {α : Type} [LinearOrderedRing α] (value : α) : α :=
  if value > 128 then 1 else 0

/-- Body of the inner loop of `bounds_from_image`, at column `i` of row `j`. -/
def bounds_from_image_cell {α : Type} [Sub α] (bounds_source : array2f α) (j i : Nat)
    (bounds : bounds_t α) : Except fault (bounds_t α) := do
  let dx := (← array2f_get bounds_source (i + 1) j) - (← array2f_get bounds_source i j)
  let dy := (← array2f_get bounds_source i (j + 1)) - (← array2f_get bounds_source i j)
  let b ← set_bx bounds i j dx
  set_by b i j dy

/-- The function `bounds_from_image` of `main.c`. The loop counters `i` and `j`
are `int`, compared with the `size_t` bounds `width - 1` and `height - 1`. -/
def bounds_from_image {α : Type} [LinearOrderedRing α] (bounds : bounds_t α) (im : image) :
    Except fault (bounds_t α) := do
  let bounds_source : array2f α := create_array2f im.resolution.width im.resolution.height
  let bounds_source ← alpha_to_array2f im bounds_source
  let bounds_source := array2f_filter bounds_source threshold
  for_range INT_MAX 0 (size_sub bounds_source.resolution.height 1) (fun j b =>
    for_range INT_MAX 0 (size_sub bounds_source.resolution.width 1)
      (bounds_from_image_cell bounds_source j) b) bounds

/-! ## Filling a grid -/

/-- Body of the inner loop of `array2f_fill`: `a.buffer[c++] = value`, on the
buffer and the cursor `c`. -/
def array2f_fill_cell {α : Type} (value : α) (st : List α × Nat) :
    Except fault (List α × Nat) :=
  if st.2 < st.1.length then Except.ok (st.1.set st.2 value, size_add st.2 1)
  else Except.error fault.memory

/-- Body of the outer loop of `array2f_fill`: one row, then
`c += (a.stride - a.resolution.width)`. -/
def array2f_fill_row {α : Type} (width stride : Nat) (value : α) (st : List α × Nat) :
    Except fault (List α × Nat) :=
  match for_range SIZE_MAX 0 width (fun _ u => array2f_fill_cell value u) st with
  | Except.ok u => Except.ok (u.1, size_add u.2 (size_sub stride width))
  | Except.error e => Except.error e

/-- The function `array2f_fill` of `main.c`. -/
def array2f_fill {α : Type} (a : array2f α) (value : α) : Except fault (array2f α) :=
  match for_range SIZE_MAX 0 a.resolution.height
      (fun _ st => array2f_fill_row a.resolution.width a.stride value st) (a.buffer, 0) with
  | Except.ok st => Except.ok { a with buffer := st.1 }
  | Except.error e => Except.error e

/-! ## The boundary model of `main` -/

/-- The lines of `main` that build the boundary model: `bx` and `by` are created
with `N + 2` columns and rows and filled with zero, then `bounds_from_image` and
`box_bounds` run. `main` has `N = 100` and the image it loaded. -/
def main_bounds {α : Type} [LinearOrderedRing α] (N : Nat) (im : image) :
    Except fault (bounds_t α) := do
  let bx ← array2f_fill (create_array2f (size_add N 2) (size_add N 2)) 0
  let by_ ← array2f_fill (create_array2f (size_add N 2) (size_add N 2)) 0
  let bounds ← bounds_from_image { bx := bx, by_ := by_ } im
  box_bounds bounds

/-! ## Rendering helpers -/

/-- The function `clamp` of `main.c`, on `size_t` values. -/
def clamp (x lo hi : Nat) : Nat :=
  if x < lo then lo
  else if x > hi then hi
  else x

/-- The `size_t` product `a * b`, which wraps at `2 ^ 64`. -/
def size_mul (a b : Nat) : Nat := (a * b) % 2 ^ 64

/-- The source coordinate `tx * image_width(source) / image_width(target)` that
`image_scale` computes for the target coordinate `tx`, in `size_t` arithmetic;
the same expression gives `sy` from `ty` and the heights. -/
def scale_coordinate (t source_size target_size : Nat) : Nat :=
  size_mul t source_size / target_size

/-- Body of the inner loop of `image_scale`, at target pixel `(tx, ty)`: the
state is the buffer of the target. -/
def image_scale_pixel (target source : image) (ty tx : Nat) (buffer : List color_t) :
    Except fault (List color_t) :=
  let sx := scale_coordinate tx (image_width source) (image_width target)
  let sy := scale_coordinate ty (image_height source) (image_height target)
  match source.buffer[sx + sy * source.stride]? with
  | some color =>
    if tx + ty * target.stride < buffer.length
    then Except.ok (buffer.set (tx + ty * target.stride) color)
    else Except.error fault.memory
  | none => Except.error fault.memory

/-- The function `image_scale` of `main.c`. -/
def image_scale (target source : image) : Except fault image :=
  match for_range SIZE_MAX 0 (image_height target) (fun ty buffer =>
      for_range SIZE_MAX 0 (image_width target) (image_scale_pixel target source ty) buffer)
      target.buffer with
  | Except.ok buffer => Except.ok { target with buffer := buffer }
  | Except.error e => Except.error e

/-! ## Loading the obstacle image -/

/-- Modelled from the spec: `create_image` of `image.h`, which is not under src:
an image of the given size; the stride is taken to be the width and the pixels
to be zero. -/
def create_image (width height : Nat) : image :=
  { resolution := { width := width, height := height }, stride := width,
    buffer := List.replicate (width * height) { red := 0, green := 0, blue := 0, alpha := 0 } }

/-- Modelled from the spec: `image_pixel_count` of `image.h`, which is not under
src: the number of pixels of the image. -/
def image_pixel_count (im : image) : Nat := im.resolution.width * im.resolution.height

/-- A line that the program writes to the standard error stream. -/
inductive message where
  /-- the line `Could not open '<filename>': <reason>` -/
  | could_not_open
  deriving DecidableEq, Repr

/-- The end of a run by `exit(status)`, with the lines written to the standard
error stream before it. -/
structure exit_t where
  status : Int
  stderr : List message
  deriving DecidableEq, Repr

/-- The call `fread(buffer, sizeof(uint32_t), count, fp)` on a file that holds
the pixels `file`: the first `count` pixels of the file, as many as it has,
replace the start of the buffer. -/
def fread (buffer : List color_t) (count : Nat) (file : List color_t) : List color_t :=
  file.take count ++ buffer.drop (min count file.length)

/-- The function `load_rgba` of `main.c`. The argument `file` is what
`fopen(filename, "r")` finds: `none` when the file cannot be opened, the pixels
of the file otherwise. -/
def load_rgba (file : Option (List color_t)) (width height : Nat) : Except exit_t image :=
  let image := create_image width height
  match file with
  | none => Except.error { status := -1, stderr := [message.could_not_open] }
  | some pixels =>
    Except.ok { image with buffer := fread image.buffer (image_pixel_count image) pixels }

/-! ## The inflow of the driver -/

/-- The arithmetic of the machine on `float` values, as `flow` uses it: every
operation is the one that the compiled code performs, its rounding included.
Nothing is assumed of the operations. -/
structure float_ops (α : Type) where
  /-- the sum of two `float` values -/
  add : α → α → α
  /-- the difference of two `float` values -/
  sub : α → α → α
  /-- the product of two `float` values -/
  mul : α → α → α
  /-- the constant `0.5f` -/
  half : α

/-- Body of the loop of `flow`, at column `x`:
`a.buffer[a.stride * y + x] = mean + amplitude * (randf() - 0.5f)`, the value
computed in the `float` arithmetic `ops`. The state is the buffer and the number
of calls of `randf` made so far; `randf n` is the value of call number `n`. -/
def flow_cell {α : Type} (ops : float_ops α) (stride y : Nat) (mean amplitude : α)
    (randf : Nat → α) (x : Nat) (st : List α × Nat) : Except fault (List α × Nat) :=
  if size_add (size_mul stride y) x < st.1.length then
    Except.ok (st.1.set (size_add (size_mul stride y) x)
      (ops.add mean (ops.mul amplitude (ops.sub (randf st.2) ops.half))), st.2 + 1)
  else Except.error fault.memory

/-- The function `flow` of `main.c`, from the state `calls` of the random
stream; it returns the grid and the new state of the stream. -/
def flow {α : Type} (ops : float_ops α) (a : array2f α) (y : Nat) (mean amplitude : α)
    (randf : Nat → α) (calls : Nat) : Except fault (array2f α × Nat) :=
  match for_range SIZE_MAX 0 a.resolution.width (flow_cell ops a.stride y mean amplitude randf)
      (a.buffer, calls) with
  | Except.ok st => Except.ok ({ a with buffer := st.1 }, st.2)
  | Except.error e => Except.error e

/-! ## Rendering the density -/

/-- Modelled from the spec: `rgb` of `color.h`, which is not under src: the
opaque colour with the given channels, of which the low 8 bits are kept. -/
def rgb (r g b : Nat) : color_t :=
  { red := Fin.ofNat r, green := Fin.ofNat g, blue := Fin.ofNat b, alpha := 255 }

/-- The conversion `(uint32_t) v` of a `float`: the value is truncated toward
zero. When the result is not a `uint32_t` the C standard leaves the outcome
open and the run goes on with the number the machine delivers, `wild v`, of
which nothing is assumed. -/
def to_uint32 (wild : ℚ → Nat) (v : ℚ) : Nat :=
  if -1 < v ∧ v < 2 ^ 32 then ⌊v⌋.toNat else wild v

/-- Body of the inner loop of `draw_dens`, at cell `(x, y)`, with `hi = 1` and
`lo = 0`; the state is the buffer of the image. Density values are rational
numbers, and the arithmetic on them is exact. -/
def draw_dens_pixel (wild : ℚ → Nat) (stride : Nat) (dens : array2f ℚ) (y x : Nat)
    (buffer : List color_t) : Except fault (List color_t) :=
  match dens.buffer[x + y * dens.stride]? with
  | none => Except.error fault.memory
  | some d =>
    let intensity := clamp (to_uint32 wild (255 * ((d - 0) / (1 - 0)))) 0 255
    if x + y * stride < buffer.length then
      Except.ok (buffer.set (x + y * stride) (rgb intensity intensity intensity))
    else Except.error fault.memory

/-- The function `draw_dens` of `main.c`. -/
def draw_dens (wild : ℚ → Nat) (im : image) (dens : array2f ℚ) : Except fault image :=
  if dens.resolution.width ≤ image_width im ∧ dens.resolution.height ≤ image_height im then
    match for_range SIZE_MAX 0 dens.resolution.height (fun y buffer =>
        for_range SIZE_MAX 0 dens.resolution.width (draw_dens_pixel wild im.stride dens y)
          buffer) im.buffer with
    | Except.ok buffer => Except.ok { im with buffer := buffer }
    | Except.error e => Except.error e
  else Except.error fault.assertion

/-- Modelled from the spec: `array2f_pad` of `array2f.h`, which is not under
src: a view, not a copy, of the grid without `px` columns and `py` rows on each
side (`main` passes the view of `pad(dens, 1, 1)` of an `N + 2` grid where
`draw_dens` asserts a width of at most `N`). The view starts at the cell
`(px, py)` and keeps the stride of the grid. The model gives the view for
reading: a write to it does not reach the grid. -/
def array2f_pad {α : Type} (a : array2f α) (px py : Nat) : array2f α :=
  { resolution := { width := size_sub a.resolution.width (size_mul 2 px),
                    height := size_sub a.resolution.height (size_mul 2 py) },
    stride := a.stride,
    buffer := a.buffer.drop (px + py * a.stride) }

/-! ## Convolution -/

/-- Body of the innermost loop of `convolution`, at the kernel cell `(kx, ky)`:
`tmp += array2f_get(kernel, kx, ky) * array2f_get(source, x + kx - half_x, y + ky - half_y)`,
the indices in `size_t` arithmetic. -/
def convolution_term {α : Type} [Semiring α] (source kernel : array2f α)
    (half_x half_y x y kx ky : Nat) (tmp : α) : Except fault α := do
  let k ← array2f_get kernel kx ky
  let s ← array2f_get source (size_sub (size_add x kx) half_x)
    (size_sub (size_add y ky) half_y)
  pure (tmp + k * s)

/-- Body of the loop over `y` of `convolution`, at the cell `(x, y)`: `tmp` is
summed from 0 over the kernel and stored in the target. -/
def convolution_cell {α : Type} [Semiring α] (source kernel : array2f α)
    (half_x half_y x y : Nat) (target : array2f α) : Except fault (array2f α) :=
  match for_range SIZE_MAX 0 kernel.resolution.width (fun kx tmp =>
      for_range SIZE_MAX 0 kernel.resolution.height
        (convolution_term source kernel half_x half_y x y kx) tmp) 0 with
  | Except.ok tmp => array2f_set target x y tmp
  | Except.error e => Except.error e

/-- The four assertions at the head of `convolution`. -/
def convolution_precondition {α : Type} (source kernel target : array2f α) : Prop :=
  source.resolution.width = target.resolution.width ∧
  source.resolution.height = target.resolution.height ∧
  kernel.resolution.width % 2 = 1 ∧ kernel.resolution.height % 2 = 1

instance {α : Type} (source kernel target : array2f α) :
    Decidable (convolution_precondition source kernel target) := by
  unfold convolution_precondition; infer_instance

/-- The function `convolution` of `main.c`; the target is a grid of its own. -/
def convolution {α : Type} [Semiring α] (source kernel target : array2f α) :
    Except fault (array2f α) :=
  if convolution_precondition source kernel target then
    for_range SIZE_MAX (kernel.resolution.width / 2)
      (size_sub source.resolution.width (kernel.resolution.width / 2)) (fun x t =>
        for_range SIZE_MAX (kernel.resolution.height / 2)
          (size_sub source.resolution.height (kernel.resolution.height / 2))
          (convolution_cell source kernel (kernel.resolution.width / 2)
            (kernel.resolution.height / 2) x) t) target
  else Except.error fault.assertion

/-! ## Convolution, with the memory it leaves -/

/-- The loop `for (c = ...; c < hi; c++) body` when the body reports the memory
it has written together with the fault that stopped it, if any: the loop stops at
the first fault and the memory is kept as it is then. -/
def for_loop_memory {σ : Type} (top : Nat) (body : Nat → σ → σ × Option fault) :
    Nat → Nat → σ → σ × Option fault
  | 0, c, s => if c ≤ top then (s, none) else (s, some fault.overflow)
  | n + 1, c, s =>
    if c ≤ top then
      match body c s with
      | (s', none) => for_loop_memory top body n (c + 1) s'
      | (s', some e) => (s', some e)
    else (s, some fault.overflow)

/-- The loop `for (c = lo; c < hi; c++) body` from memory `s`, with the memory
kept at a fault. -/
def for_range_memory {σ : Type} (top lo hi : Nat) (body : Nat → σ → σ × Option fault)
    (s : σ) : σ × Option fault :=
  for_loop_memory top body (hi - lo) lo s

/-- The result of a call that left the memory `m.1` and stopped at the fault
`m.2`, if any. -/
def outcome {σ : Type} (m : σ × Option fault) : Except fault σ :=
  match m with
  | (s, none) => Except.ok s
  | (_, some e) => Except.error e

/-- Body of the loop over `y` of `convolution` with the memory of the target
kept: the only write is the `array2f_set` that ends the body, so at a fault the
target is as it was before the body. -/
def convolution_cell_memory {α : Type} [Semiring α] (source kernel : array2f α)
    (half_x half_y x y : Nat) (target : array2f α) : array2f α × Option fault :=
  match convolution_cell source kernel half_x half_y x y target with
  | Except.ok t => (t, none)
  | Except.error e => (target, some e)

/-- The function `convolution` of `main.c` once more, giving the memory of the
target as the call leaves it and the fault that stopped the call, if any. The
assertions come first, as in the source, and the loops after them. -/
def convolution_memory {α : Type} [Semiring α] (source kernel target : array2f α) :
    array2f α × Option fault :=
  if convolution_precondition source kernel target then
    for_range_memory SIZE_MAX (kernel.resolution.width / 2)
      (size_sub source.resolution.width (kernel.resolution.width / 2)) (fun x t =>
        for_range_memory SIZE_MAX (kernel.resolution.height / 2)
          (size_sub source.resolution.height (kernel.resolution.height / 2))
          (convolution_cell_memory source kernel (kernel.resolution.width / 2)
            (kernel.resolution.height / 2) x) t) target
  else (target, some fault.assertion)

/-! ## Definitions used to state the properties -/

/-- The grid `a` after the cell `(x, y)` is overwritten with `v`. -/
def array2f.put {α : Type} (a : array2f α) (x y : Nat) (v : α) : array2f α :=
  { a with buffer := a.buffer.set (x + y * a.stride) v }

/-- Grid `a` has the shape of grid `b` and satisfies the data-model invariant. -/
def array2f.like {α : Type} (a b : array2f α) : Prop :=
  a.resolution = b.resolution ∧ a.stride = b.stride ∧ a.wf

/-- State of the first loop of `box_bounds` when the counter is `j`. -/
def box_rows_inv {α : Type} [Zero α] [One α] [Neg α] (b : bounds_t α) (j : Nat)
    (s : bounds_t α) : Prop :=
  s.bx.like b.bx ∧ s.by_.like b.by_ ∧
  ∀ x y, x < b.bx.resolution.width → y < b.bx.resolution.height →
    array2f_get s.bx x y =
      (if 1 ≤ y ∧ y < j ∧ x = 0 then Except.ok 1
       else if 1 ≤ y ∧ y < j ∧ x = b.bx.resolution.width - 1 then Except.ok (-1)
       else array2f_get b.bx x y) ∧
    array2f_get s.by_ x y =
      (if 1 ≤ y ∧ y < j ∧ (x = 0 ∨ x = b.bx.resolution.width - 1) then Except.ok 0
       else array2f_get b.by_ x y)

/-- State of the second loop of `box_bounds` when the counter is `i`; `b` is the
state the loop started from. -/
def box_columns_inv {α : Type} [Zero α] [One α] [Neg α] (b : bounds_t α) (i : Nat)
    (s : bounds_t α) : Prop :=
  s.bx.like b.bx ∧ s.by_.like b.by_ ∧
  ∀ x y, x < b.bx.resolution.width → y < b.bx.resolution.height →
    array2f_get s.bx x y =
      (if 1 ≤ x ∧ x < i ∧ (y = 0 ∨ y = b.bx.resolution.height - 1) then Except.ok 0
       else array2f_get b.bx x y) ∧
    array2f_get s.by_ x y =
      (if 1 ≤ x ∧ x < i ∧ y = 0 then Except.ok 1
       else if 1 ≤ x ∧ x < i ∧ y = b.bx.resolution.height - 1 then Except.ok (-1)
       else array2f_get b.by_ x y)

/-- What `box_bounds` leaves in cell `(x, y)` of `bx`, given the earlier content `old`. -/
def box_bx {α : Type} [Zero α] [One α] [Neg α] (w h x y : Nat) (old : Except fault α) :
    Except fault α :=
  if 1 ≤ x ∧ x < w - 1 ∧ (y = 0 ∨ y = h - 1) then Except.ok 0
  else if 1 ≤ y ∧ y < h - 1 ∧ x = 0 then Except.ok 1
  else if 1 ≤ y ∧ y < h - 1 ∧ x = w - 1 then Except.ok (-1)
  else old

/-- What `box_bounds` leaves in cell `(x, y)` of `by`, given the earlier content `old`. -/
def box_by {α : Type} [Zero α] [One α] [Neg α] (w h x y : Nat) (old : Except fault α) :
    Except fault α :=
  if 1 ≤ x ∧ x < w - 1 ∧ y = 0 then Except.ok 1
  else if 1 ≤ x ∧ x < w - 1 ∧ y = h - 1 then Except.ok (-1)
  else if 1 ≤ y ∧ y < h - 1 ∧ (x = 0 ∨ x = w - 1) then Except.ok 0
  else old

/-- Cell `(x, y)` lies on the border of a `w` by `h` grid. -/
def is_border (w h x y : Nat) : Prop :=
  x = 0 ∨ x = w - 1 ∨ y = 0 ∨ y = h - 1

/-- Cell `(x, y)` is one of the four corners of a `w` by `h` grid. -/
def is_corner (w h x y : Nat) : Prop :=
  (x = 0 ∨ x = w - 1) ∧ (y = 0 ∨ y = h - 1)

instance (w h x y : Nat) : Decidable (is_border w h x y) := by
  unfold is_border; infer_instance

instance (w h x y : Nat) : Decidable (is_corner w h x y) := by
  unfold is_corner; infer_instance

/-- A `w` by `h` grid of stride `w` with the same value in every cell. -/
def constant_grid {α : Type} (w h : Nat) (v : α) : array2f α :=
  { resolution := { width := w, height := h }, stride := w, buffer := List.replicate (w * h) v }

/-- A colour with the given alpha and colour channels `r`, `g`, `b`. -/
def rgba (r g b a : Fin 256) : color_t := { red := r, green := g, blue := b, alpha := a }

/-- The alpha value of pixel `(x, y)` of the image, `0` when the pixel cannot be read. -/
def alpha_at (im : image) (x y : Nat) : Nat :=
  match image_pixel im x y with
  | Except.ok c => get_alpha c
  | Except.error _ => 0

/-- The mask value `s[x, y]` of `bounds_from_image`: the threshold of the alpha
of pixel `(x, y)` of the image. -/
def mask {α : Type} [LinearOrderedRing α] (im : image) (x y : Nat) : α :=
  threshold ((alpha_at im x y : Nat) : α)

/-- State of the loops of `alpha_to_array2f` at row `y`, column `x`, started on `a`. -/
def alpha_inv {α : Type} [NatCast α] (im : image) (a : array2f α) (y x : Nat)
    (s : array2f α) : Prop :=
  s.like a ∧
  ∀ x' y', x' < a.resolution.width → y' < a.resolution.height →
    array2f_get s x' y' =
      if x' < im.resolution.width ∧ (y' < y ∨ (y' = y ∧ x' < x))
      then Except.ok ((alpha_at im x' y' : Nat) : α) else array2f_get a x' y'

/-- State of the loops of `bounds_from_image` at row `j`, column `i`, started on
`b`; `m` is the mask and `n` the number of columns the inner loop visits. -/
def difference_inv {α : Type} [Sub α] (m : Nat → Nat → α) (n : Nat) (b : bounds_t α)
    (j i : Nat) (s : bounds_t α) : Prop :=
  s.bx.like b.bx ∧ s.by_.like b.by_ ∧
  ∀ x y, x < b.bx.resolution.width → y < b.bx.resolution.height →
    array2f_get s.bx x y =
      (if x < n ∧ (y < j ∨ (y = j ∧ x < i)) then Except.ok (m (x + 1) y - m x y)
       else array2f_get b.bx x y) ∧
    array2f_get s.by_ x y =
      (if x < n ∧ (y < j ∨ (y = j ∧ x < i)) then Except.ok (m x (y + 1) - m x y)
       else array2f_get b.by_ x y)

/-- An opaque white pixel (alpha 255). -/
def solid : color_t := rgba 255 255 255 255

/-- A transparent black pixel (alpha 0). -/
def clear_pixel : color_t := rgba 0 0 0 0

/-- A 2 by 2 image whose pixel `(0, 0)` is opaque and whose other pixels are transparent. -/
def dot_image : image :=
  { resolution := { width := 2, height := 2 }, stride := 2,
    buffer := [solid, clear_pixel, clear_pixel, clear_pixel] }

/-- A 3 by 3 image with an opaque centre on a transparent ground. -/
def centre_image : image :=
  { resolution := { width := 3, height := 3 }, stride := 3,
    buffer := [clear_pixel, clear_pixel, clear_pixel, clear_pixel, solid, clear_pixel,
      clear_pixel, clear_pixel, clear_pixel] }

/-- The image `centre_image` with other colour channels and the same alpha. -/
def centre_image_red : image :=
  { resolution := { width := 3, height := 3 }, stride := 3,
    buffer := [rgba 7 0 0 0, rgba 7 0 0 0, rgba 7 0 0 0, rgba 7 0 0 0, rgba 200 10 10 255,
      rgba 7 0 0 0, rgba 7 0 0 0, rgba 7 0 0 0, rgba 7 0 0 0] }

/-- Buffer position `k` of a grid of width `w` and stride `s` is a logical cell
that `array2f_fill` has written when it stands at row `y`, column `x`. -/
def filled (w s y x k : Nat) : Prop :=
  k % s < w ∧ (k / s < y ∨ (k / s = y ∧ k % s < x))

instance (w s y x k : Nat) : Decidable (filled w s y x k) := by
  unfold filled; infer_instance

/-- State of the loops of `array2f_fill` at row `y`, column `x`. -/
def fill_inv {α : Type} (a : array2f α) (value : α) (y x : Nat) (st : List α × Nat) : Prop :=
  st.1.length = a.buffer.length ∧ st.2 = y * a.stride + x ∧
  ∀ k, k < a.buffer.length →
    st.1[k]? = if filled a.resolution.width a.stride y x k then some value else a.buffer[k]?

/-- A 2 by 2 grid of stride 3, with the values 9 in the stride padding. -/
def padded_grid : array2f Int :=
  { resolution := { width := 2, height := 2 }, stride := 3, buffer := [1, 2, 9, 3, 4, 9] }

/-- A 100 by 100 image whose pixel `(0, 0)` is opaque and whose other pixels are
transparent. -/
def spot_image : image :=
  { resolution := { width := 100, height := 100 }, stride := 100,
    buffer := solid :: List.replicate 9999 clear_pixel }

/-- State of the loops of `image_scale` at row `ty`, column `tx` of the target. -/
def scale_inv (target source : image) (ty tx : Nat) (buffer : List color_t) : Prop :=
  buffer.length = target.buffer.length ∧
  ∀ x y, x < target.resolution.width → y < target.resolution.height →
    buffer[x + y * target.stride]? =
      if y < ty ∨ (y = ty ∧ x < tx) then
        source.buffer[scale_coordinate x source.resolution.width target.resolution.width +
          scale_coordinate y source.resolution.height target.resolution.height * source.stride]?
      else target.buffer[x + y * target.stride]?

/-- A 1 by 1 image. -/
def one_pixel : image :=
  { resolution := { width := 1, height := 1 }, stride := 1, buffer := [solid] }

/-- The image with no pixel. -/
def no_pixel : image :=
  { resolution := { width := 0, height := 0 }, stride := 0, buffer := [] }

/-- A 2 by 1 image with an opaque and a transparent pixel. -/
def two_pixels : image :=
  { resolution := { width := 2, height := 1 }, stride := 2, buffer := [solid, clear_pixel] }

/-- A 4 by 2 image of transparent pixels. -/
def blank_image : image :=
  { resolution := { width := 4, height := 2 }, stride := 4,
    buffer := List.replicate 8 clear_pixel }

/-- State of the loop of `flow` on row `y` at column `x`, started on the grid
`a` with `calls` earlier calls of `randf`. -/
def flow_inv {α : Type} (ops : float_ops α) (a : array2f α) (y : Nat) (mean amplitude : α)
    (randf : Nat → α) (calls x : Nat) (st : List α × Nat) : Prop :=
  st.1.length = a.buffer.length ∧ st.2 = calls + x ∧
  ∀ x' y', x' < a.resolution.width → y' < a.resolution.height →
    st.1[x' + y' * a.stride]? =
      if y' = y ∧ x' < x then
        some (ops.add mean (ops.mul amplitude (ops.sub (randf (calls + x')) ops.half)))
      else a.buffer[x' + y' * a.stride]?

/-- The exact operations on rational numbers, which are those of binary32 on
arguments whose exact result is a binary32 number. -/
def exact_ops : float_ops ℚ :=
  { add := fun a b => a + b, sub := fun a b => a - b, mul := fun a b => a * b, half := 1 / 2 }

/-- The grey level that `draw_dens` computes from a density `d`. -/
def grey (wild : ℚ → Nat) (d : ℚ) : Nat :=
  clamp (to_uint32 wild (255 * ((d - 0) / (1 - 0)))) 0 255

/-- Every logical cell of the grid lies in its buffer. A grid that satisfies the
data-model invariant is readable, and so is a view made by `array2f_pad`. -/
def array2f.readable {α : Type} (a : array2f α) : Prop :=
  ∀ x y, x < a.resolution.width → y < a.resolution.height →
    x + y * a.stride < a.buffer.length

/-- State of the loops of `draw_dens` at row `y0`, column `x0`. -/
def draw_inv (wild : ℚ → Nat) (im : image) (dens : array2f ℚ) (d : Nat → Nat → ℚ)
    (y0 x0 : Nat) (buffer : List color_t) : Prop :=
  buffer.length = im.buffer.length ∧
  ∀ x y, x < im.resolution.width → y < im.resolution.height →
    buffer[x + y * im.stride]? =
      if x < dens.resolution.width ∧ (y < y0 ∨ (y = y0 ∧ x < x0))
      then some (rgb (grey wild (d x y)) (grey wild (d x y)) (grey wild (d x y)))
      else im.buffer[x + y * im.stride]?

/-- A 4 by 3 density grid whose two interior cells hold `-1` and `1`, in a ring
of cells that hold 9. -/
def ringed_grid : array2f ℚ :=
  { resolution := { width := 4, height := 3 }, stride := 4,
    buffer := [9, 9, 9, 9, 9, -1, 1, 9, 9, 9, 9, 9] }

/-- The value of cell `(x, y)` of a grid, `0` when the cell cannot be read. -/
def cell_at {α : Type} [Zero α] (a : array2f α) (x y : Nat) : α :=
  match array2f_get a x y with
  | Except.ok v => v
  | Except.error _ => 0

/-- The sum that `convolution` stores at `(x, y)`: over all kernel cells
`(kx, ky)`, `kernel[kx, ky] * source[x + kx - half_x, y + ky - half_y]`. -/
def convolution_sum {α : Type} [Semiring α] (source kernel : array2f α) (x y : Nat) : α :=
  ∑ kx in Finset.range kernel.resolution.width,
    ∑ ky in Finset.range kernel.resolution.height,
      cell_at kernel kx ky *
        cell_at source (x + kx - kernel.resolution.width / 2)
          (y + ky - kernel.resolution.height / 2)

/-- Cell `(x, y)` is one that `convolution` visits on a `w` by `h` source with a
`kw` by `kh` kernel. -/
def visited (w h kw kh x y : Nat) : Prop :=
  kw / 2 ≤ x ∧ x < w - kw / 2 ∧ kh / 2 ≤ y ∧ y < h - kh / 2

instance (w h kw kh x y : Nat) : Decidable (visited w h kw kh x y) := by
  unfold visited; infer_instance

/-- State of the loops of `convolution` at column `x0`, row `y0`, started on the
target `t`. -/
def convolution_inv {α : Type} [Semiring α] (source kernel t : array2f α) (x0 y0 : Nat)
    (s : array2f α) : Prop :=
  s.like t ∧
  ∀ x y, x < t.resolution.width → y < t.resolution.height →
    array2f_get s x y =
      if visited source.resolution.width source.resolution.height kernel.resolution.width
          kernel.resolution.height x y ∧ (x < x0 ∨ (x = x0 ∧ y < y0))
      then Except.ok (convolution_sum source kernel x y) else array2f_get t x y

/-- A 3 by 3 grid with the values 1 to 9, row by row. -/
def ramp_grid : array2f Int :=
  { resolution := { width := 3, height := 3 }, stride := 3,
    buffer := [1, 2, 3, 4, 5, 6, 7, 8, 9] }

/-- A 3 by 3 kernel that is 1 in its top left cell and 10 in its centre. -/
def corner_kernel : array2f Int :=
  { resolution := { width := 3, height := 3 }, stride := 3,
    buffer := [1, 0, 0, 0, 10, 0, 0, 0, 0] }

/-- A 5 by 5 kernel of ones. -/
def wide_kernel : array2f Int := constant_grid 5 5 1

/-- A kernel of ones with 2 columns and 3 rows. -/
def even_kernel : array2f Int := constant_grid 2 3 1

/-! ## Arithmetic of `size_t` -/

theorem size_sub_of_le {a b : Nat} (ha : a < 2 ^ 64) (hb : b ≤ a) : size_sub a b = a - b := by
  unfold size_sub
  omega

theorem size_sub_lt (a b : Nat) : size_sub a b < 2 ^ 64 := by
  unfold size_sub
  omega

/-! ## Loops -/

theorem for_loop_inv {σ : Type} (top : Nat) (body : Nat → σ → Except fault σ)
    (I : Nat → σ → Prop) (n : Nat) :
    ∀ (c : Nat) (s : σ), c + n ≤ top → I c s →
      (∀ k t, c ≤ k → k < c + n → I k t → ∃ t', body k t = Except.ok t' ∧ I (k + 1) t') →
      ∃ s', for_loop top body n c s = Except.ok s' ∧ I (c + n) s' := by
  induction n with
  | zero =>
    intro c s hc h0 _
    exact ⟨s, by simp [for_loop]; omega, h0⟩
  | succ n ih =>
    intro c s hc h0 hstep
    obtain ⟨t, ht, hI⟩ := hstep c s (le_refl c) (by omega) h0
    obtain ⟨s', hs', hI'⟩ := ih (c + 1) t (by omega) hI
      (fun k u hk hk' hu => hstep k u (by omega) (by omega) hu)
    refine ⟨s', ?_, ?_⟩
    · have hct : c ≤ top := by omega
      simp [for_loop, hct, ht, hs']
    · have : c + (n + 1) = c + 1 + n := by omega
      rw [this]; exact hI'

theorem for_range_inv {σ : Type} (top lo hi : Nat) (body : Nat → σ → Except fault σ)
    (I : Nat → σ → Prop) (s : σ) (hle : lo ≤ hi) (htop : hi ≤ top) (h0 : I lo s)
    (hstep : ∀ k t, lo ≤ k → k < hi → I k t → ∃ t', body k t = Except.ok t' ∧ I (k + 1) t') :
    ∃ s', for_range top lo hi body s = Except.ok s' ∧ I hi s' := by
  have h := for_loop_inv top body I (hi - lo) lo s (by omega) h0
    (fun k t hk hk' ht => hstep k t hk (by omega) ht)
  have e : lo + (hi - lo) = hi := by omega
  rw [e] at h
  exact h

/-! ## Cells of a grid -/

theorem cell_index_lt {α : Type} {a : array2f α} (hwf : a.wf) {x y : Nat}
    (hx : x < a.resolution.width) (hy : y < a.resolution.height) :
    x + y * a.stride < a.buffer.length := by
  obtain ⟨h1, h2, _⟩ := hwf
  rw [h2]
  have h3 : (y + 1) * a.stride ≤ a.resolution.height * a.stride :=
    Nat.mul_le_mul_right _ (by omega)
  have h4 : (y + 1) * a.stride = y * a.stride + a.stride := by ring
  have h5 : a.stride * a.resolution.height = a.resolution.height * a.stride := Nat.mul_comm _ _
  omega

theorem cell_index_inj {s x y x' y' : Nat} (hx : x < s) (hx' : x' < s)
    (h : x + y * s = x' + y' * s) : x = x' ∧ y = y' := by
  have hm : (x + y * s) % s = (x' + y' * s) % s := by rw [h]
  rw [Nat.add_mul_mod_self_right, Nat.add_mul_mod_self_right, Nat.mod_eq_of_lt hx,
    Nat.mod_eq_of_lt hx'] at hm
  subst hm
  have hs : 0 < s := by omega
  exact ⟨rfl, Nat.eq_of_mul_eq_mul_right hs (by omega)⟩

theorem array2f_set_ok {α : Type} {a : array2f α} (hwf : a.wf) {x y : Nat}
    (hx : x < a.resolution.width) (hy : y < a.resolution.height) (v : α) :
    array2f_set a x y v = Except.ok (a.put x y v) := by
  simp [array2f_set, array2f.put, hx, hy, cell_index_lt hwf hx hy]

theorem put_wf {α : Type} {a : array2f α} (hwf : a.wf) (x y : Nat) (v : α) :
    (a.put x y v).wf := by
  simpa [array2f.put, array2f.wf] using hwf

theorem array2f_get_put {α : Type} {a : array2f α} (hwf : a.wf) {x y : Nat}
    (hx : x < a.resolution.width) (hy : y < a.resolution.height) (v : α) {x' y' : Nat}
    (hx' : x' < a.resolution.width) (hy' : y' < a.resolution.height) :
    array2f_get (a.put x y v) x' y' =
      if x' = x ∧ y' = y then Except.ok v else array2f_get a x' y' := by
  have hl := cell_index_lt hwf hx hy
  by_cases hc : x' = x ∧ y' = y
  · obtain ⟨rfl, rfl⟩ := hc
    simp [array2f_get, array2f.put, hx, hy, hl]
  · have hne : x + y * a.stride ≠ x' + y' * a.stride := by
      intro h
      obtain ⟨e1, e2⟩ := cell_index_inj (Nat.lt_of_lt_of_le hx hwf.1)
        (Nat.lt_of_lt_of_le hx' hwf.1) h
      exact hc ⟨e1.symm, e2.symm⟩
    simp [array2f_get, array2f.put, hx', hy', hc, List.getElem?_set_ne hne]

@[simp] theorem put_resolution {α : Type} (a : array2f α) (x y : Nat) (v : α) :
    (a.put x y v).resolution = a.resolution := rfl

@[simp] theorem put_stride {α : Type} (a : array2f α) (x y : Nat) (v : α) :
    (a.put x y v).stride = a.stride := rfl

theorem like_refl {α : Type} {a : array2f α} (h : a.wf) : a.like a := ⟨rfl, rfl, h⟩

theorem like_put {α : Type} {a b : array2f α} (h : a.like b) (x y : Nat) (v : α) :
    (a.put x y v).like b := ⟨h.1, h.2.1, put_wf h.2.2 x y v⟩

/-! ## `box_bounds` -/

theorem set_bx_ok {α : Type} (gx gy : array2f α) (hwf : gx.wf) {x y : Nat}
    (hx : x < gx.resolution.width) (hy : y < gx.resolution.height) (v : α) :
    set_bx { bx := gx, by_ := gy } x y v = Except.ok { bx := gx.put x y v, by_ := gy } := by
  simp [set_bx, array2f_set_ok hwf hx hy]

theorem set_by_ok {α : Type} (gx gy : array2f α) (hwf : gy.wf) {x y : Nat}
    (hx : x < gy.resolution.width) (hy : y < gy.resolution.height) (v : α) :
    set_by { bx := gx, by_ := gy } x y v = Except.ok { bx := gx, by_ := gy.put x y v } := by
  simp [set_by, array2f_set_ok hwf hx hy]

theorem box_bounds_row_ok {α : Type} [Zero α] [One α] [Neg α] (b : bounds_t α) (w j : Nat)
    (hbx : b.bx.wf) (hby : b.by_.wf) (hres : b.by_.resolution = b.bx.resolution)
    (hw : b.bx.resolution.width = w) (hw1 : 1 ≤ w) (hj : j < b.bx.resolution.height) :
    box_bounds_row w j b = Except.ok
      { bx := (b.bx.put 0 j 1).put (w - 1) j (-1),
        by_ := (b.by_.put 0 j 0).put (w - 1) j 0 } := by
  obtain ⟨gx, gy⟩ := b
  simp only at hbx hby hres hw hj
  have hwlt : w < 2 ^ 64 := by rw [← hw]; exact hbx.2.2.1
  have e : size_sub w 1 = w - 1 := size_sub_of_le hwlt hw1
  have hj' : j < gy.resolution.height := by rw [hres]; exact hj
  have hw' : gy.resolution.width = w := by rw [hres]; exact hw
  unfold box_bounds_row
  rw [e, set_bx_ok gx gy hbx (by omega) hj]
  simp only [bind, Except.bind]
  rw [set_by_ok _ gy hby (by omega) hj']
  simp only []
  rw [set_bx_ok _ _ (put_wf hbx _ _ _) (by simp only [put_resolution]; omega)
    (by simp only [put_resolution]; exact hj)]
  simp only []
  rw [set_by_ok _ _ (put_wf hby _ _ _) (by simp only [put_resolution]; omega)
    (by simp only [put_resolution]; exact hj')]

theorem box_bounds_column_ok {α : Type} [Zero α] [One α] [Neg α] (b : bounds_t α) (h i : Nat)
    (hbx : b.bx.wf) (hby : b.by_.wf) (hres : b.by_.resolution = b.bx.resolution)
    (hh : b.bx.resolution.height = h) (hh1 : 1 ≤ h) (hi : i < b.bx.resolution.width) :
    box_bounds_column h i b = Except.ok
      { bx := (b.bx.put i 0 0).put i (h - 1) 0,
        by_ := (b.by_.put i 0 1).put i (h - 1) (-1) } := by
  obtain ⟨gx, gy⟩ := b
  simp only at hbx hby hres hh hi
  have hhlt : h < 2 ^ 64 := by rw [← hh]; exact hbx.2.2.2.1
  have e : size_sub h 1 = h - 1 := size_sub_of_le hhlt hh1
  have hi' : i < gy.resolution.width := by rw [hres]; exact hi
  have hh' : gy.resolution.height = h := by rw [hres]; exact hh
  unfold box_bounds_column
  rw [e, set_bx_ok gx gy hbx hi (by omega)]
  simp only [bind, Except.bind]
  rw [set_by_ok _ gy hby hi' (by omega)]
  simp only []
  rw [set_bx_ok _ _ (put_wf hbx _ _ _) (by simp only [put_resolution]; exact hi)
    (by simp only [put_resolution]; omega)]
  simp only []
  rw [set_by_ok _ _ (put_wf hby _ _ _) (by simp only [put_resolution]; exact hi')
    (by simp only [put_resolution]; omega)]

theorem get_put_like {α : Type} {a b : array2f α} (h : a.like b) {x y : Nat}
    (hx : x < b.resolution.width) (hy : y < b.resolution.height) (v : α) {x' y' : Nat}
    (hx' : x' < b.resolution.width) (hy' : y' < b.resolution.height) :
    array2f_get (a.put x y v) x' y' =
      if x' = x ∧ y' = y then Except.ok v else array2f_get a x' y' := by
  obtain ⟨h1, _, h3⟩ := h
  rw [← h1] at hx hy hx' hy'
  exact array2f_get_put h3 hx hy v hx' hy'

theorem box_rows_step {α : Type} [Zero α] [One α] [Neg α] (b : bounds_t α)
    (hres : b.by_.resolution = b.bx.resolution) (hw : 2 ≤ b.bx.resolution.width)
    (k : Nat) (t : bounds_t α) (hk1 : 1 ≤ k) (hk : k < b.bx.resolution.height - 1)
    (ht : box_rows_inv b k t) :
    ∃ t', box_bounds_row b.bx.resolution.width k t = Except.ok t' ∧
      box_rows_inv b (k + 1) t' := by
  obtain ⟨lx, ly, hc⟩ := ht
  have hres' : t.by_.resolution = t.bx.resolution := by rw [lx.1, ly.1, hres]
  refine ⟨_, box_bounds_row_ok t _ k lx.2.2 ly.2.2 hres' (by rw [lx.1]) (by omega)
    (by rw [lx.1]; omega), like_put (like_put lx _ _ _) _ _ _,
    like_put (like_put ly _ _ _) _ _ _, ?_⟩
  intro x y hx hy
  have hk' : k < b.bx.resolution.height := by omega
  have h0 : 0 < b.bx.resolution.width := by omega
  have hw1 : b.bx.resolution.width - 1 < b.bx.resolution.width := by omega
  obtain ⟨cx, cy⟩ := hc x y hx hy
  constructor
  · rw [get_put_like (like_put lx _ _ _) hw1 hk' _ hx hy, get_put_like lx h0 hk' _ hx hy, cx]
    split_ifs <;> first | rfl | omega
  · rw [get_put_like (like_put ly _ _ _) (by rw [hres]; exact hw1) (by rw [hres]; exact hk') _
      (by rw [hres]; exact hx) (by rw [hres]; exact hy),
      get_put_like ly (by rw [hres]; exact h0) (by rw [hres]; exact hk') _
      (by rw [hres]; exact hx) (by rw [hres]; exact hy), cy]
    split_ifs <;> first | rfl | omega

theorem box_columns_step {α : Type} [Zero α] [One α] [Neg α] (b : bounds_t α)
    (hres : b.by_.resolution = b.bx.resolution) (hh : 2 ≤ b.bx.resolution.height)
    (k : Nat) (t : bounds_t α) (hk1 : 1 ≤ k) (hk : k < b.bx.resolution.width - 1)
    (ht : box_columns_inv b k t) :
    ∃ t', box_bounds_column b.bx.resolution.height k t = Except.ok t' ∧
      box_columns_inv b (k + 1) t' := by
  obtain ⟨lx, ly, hc⟩ := ht
  have hres' : t.by_.resolution = t.bx.resolution := by rw [lx.1, ly.1, hres]
  refine ⟨_, box_bounds_column_ok t _ k lx.2.2 ly.2.2 hres' (by rw [lx.1]) (by omega)
    (by rw [lx.1]; omega), like_put (like_put lx _ _ _) _ _ _,
    like_put (like_put ly _ _ _) _ _ _, ?_⟩
  intro x y hx hy
  have hk' : k < b.bx.resolution.width := by omega
  have h0 : 0 < b.bx.resolution.height := by omega
  have hh1 : b.bx.resolution.height - 1 < b.bx.resolution.height := by omega
  obtain ⟨cx, cy⟩ := hc x y hx hy
  constructor
  · rw [get_put_like (like_put lx _ _ _) hk' hh1 _ hx hy, get_put_like lx hk' h0 _ hx hy, cx]
    split_ifs <;> first | rfl | omega
  · rw [get_put_like (like_put ly _ _ _) (by rw [hres]; exact hk') (by rw [hres]; exact hh1) _
      (by rw [hres]; exact hx) (by rw [hres]; exact hy),
      get_put_like ly (by rw [hres]; exact hk') (by rw [hres]; exact h0) _
      (by rw [hres]; exact hx) (by rw [hres]; exact hy), cy]
    split_ifs <;> first | rfl | omega

/-- The result of `box_bounds` on well-formed grids of one size, at least 2 by 2:
the call returns, the grids keep their shape, and every cell holds what
`box_bx` and `box_by` say. -/
theorem box_bounds_cells {α : Type} [Zero α] [One α] [Neg α] (b : bounds_t α)
    (hbx : b.bx.wf) (hby : b.by_.wf) (hres : b.by_.resolution = b.bx.resolution)
    (hw : 2 ≤ b.bx.resolution.width) (hh : 2 ≤ b.bx.resolution.height) :
    ∃ b', box_bounds b = Except.ok b' ∧ b'.bx.like b.bx ∧ b'.by_.like b.by_ ∧
      ∀ x y, x < b.bx.resolution.width → y < b.bx.resolution.height →
        array2f_get b'.bx x y =
          box_bx b.bx.resolution.width b.bx.resolution.height x y (array2f_get b.bx x y) ∧
        array2f_get b'.by_ x y =
          box_by b.bx.resolution.width b.bx.resolution.height x y (array2f_get b.by_ x y) := by
  have hwlt : b.bx.resolution.width < 2 ^ 64 := hbx.2.2.1
  have hhlt : b.bx.resolution.height < 2 ^ 64 := hbx.2.2.2.1
  have eh : size_sub b.bx.resolution.height 1 = b.bx.resolution.height - 1 :=
    size_sub_of_le hhlt (by omega)
  have ew : size_sub b.bx.resolution.width 1 = b.bx.resolution.width - 1 :=
    size_sub_of_le hwlt (by omega)
  obtain ⟨b1, hb1, l1x, l1y, c1⟩ := for_range_inv SIZE_MAX 1 (b.bx.resolution.height - 1)
    (box_bounds_row b.bx.resolution.width) (box_rows_inv b) b (by omega)
    (by unfold SIZE_MAX; omega)
    ⟨like_refl hbx, like_refl hby, fun x y _ _ => by
      constructor <;> (split_ifs <;> first | rfl | omega)⟩
    (fun k t hk1 hk ht => box_rows_step b hres hw k t hk1 hk ht)
  have hres1 : b1.by_.resolution = b1.bx.resolution := by rw [l1x.1, l1y.1, hres]
  have hh1 : 2 ≤ b1.bx.resolution.height := by rw [l1x.1]; exact hh
  obtain ⟨b2, hb2, l2x, l2y, c2⟩ := for_range_inv SIZE_MAX 1 (b.bx.resolution.width - 1)
    (box_bounds_column b.bx.resolution.height) (box_columns_inv b1) b1 (by omega)
    (by unfold SIZE_MAX; omega)
    ⟨like_refl l1x.2.2, like_refl l1y.2.2, fun x y _ _ => by
      constructor <;> (split_ifs <;> first | rfl | omega)⟩
    (fun k t hk1 hk ht => by
      have := box_columns_step b1 hres1 hh1 k t hk1 (by rw [l1x.1]; exact hk) ht
      rw [l1x.1] at this
      exact this)
  refine ⟨b2, ?_, ⟨l2x.1.trans l1x.1, l2x.2.1.trans l1x.2.1, l2x.2.2⟩,
    ⟨l2y.1.trans l1y.1, l2y.2.1.trans l1y.2.1, l2y.2.2⟩, ?_⟩
  · have hdef : box_bounds b =
        (for_range SIZE_MAX 1 (size_sub b.bx.resolution.height 1)
          (box_bounds_row b.bx.resolution.width) b).bind
        (for_range SIZE_MAX 1 (size_sub b.bx.resolution.width 1)
          (box_bounds_column b.bx.resolution.height)) := rfl
    rw [hdef, eh, ew, hb1]
    exact hb2
  · intro x y hx hy
    obtain ⟨c2x, c2y⟩ := c2 x y (by rw [l1x.1]; exact hx) (by rw [l1x.1]; exact hy)
    obtain ⟨c1x, c1y⟩ := c1 x y hx hy
    rw [c2x, c2y, c1x, c1y, l1x.1]
    unfold box_bx box_by
    constructor <;> (split_ifs <;> rfl)

/-! ## Claims about `box_bounds` -/

/-- C1: on bounds grids of one size, at least 2 by 2, with any earlier content,
`box_bounds` returns and every non-corner border cell then holds the inward
unit vector: `(1, 0)` at `(0, j)` and `(-1, 0)` at `(w - 1, j)` for
`1 <= j <= h - 2`, `(0, 1)` at `(i, 0)` and `(0, -1)` at `(i, h - 1)` for
`1 <= i <= w - 2`. -/
theorem box_bounds_inward {α : Type} [Zero α] [One α] [Neg α] (b : bounds_t α)
    (hbx : b.bx.wf) (hby : b.by_.wf) (hres : b.by_.resolution = b.bx.resolution)
    (hw : 2 ≤ b.bx.resolution.width) (hh : 2 ≤ b.bx.resolution.height) :
    ∃ b', box_bounds b = Except.ok b' ∧
      (∀ j, 1 ≤ j → j ≤ b.bx.resolution.height - 2 →
        array2f_get b'.bx 0 j = Except.ok 1 ∧ array2f_get b'.by_ 0 j = Except.ok 0 ∧
        array2f_get b'.bx (b.bx.resolution.width - 1) j = Except.ok (-1) ∧
        array2f_get b'.by_ (b.bx.resolution.width - 1) j = Except.ok 0) ∧
      (∀ i, 1 ≤ i → i ≤ b.bx.resolution.width - 2 →
        array2f_get b'.bx i 0 = Except.ok 0 ∧ array2f_get b'.by_ i 0 = Except.ok 1 ∧
        array2f_get b'.bx i (b.bx.resolution.height - 1) = Except.ok 0 ∧
        array2f_get b'.by_ i (b.bx.resolution.height - 1) = Except.ok (-1)) := by
  obtain ⟨b', hb', _, _, hc⟩ := box_bounds_cells b hbx hby hres hw hh
  refine ⟨b', hb', ?_, ?_⟩
  · intro j hj1 hj2
    obtain ⟨l1, l2⟩ := hc 0 j (by omega) (by omega)
    obtain ⟨r1, r2⟩ := hc (b.bx.resolution.width - 1) j (by omega) (by omega)
    rw [l1, l2, r1, r2]
    unfold box_bx box_by
    refine ⟨?_, ?_, ?_, ?_⟩ <;> (split_ifs <;> first | rfl | omega)
  · intro i hi1 hi2
    obtain ⟨t1, t2⟩ := hc i 0 (by omega) (by omega)
    obtain ⟨u1, u2⟩ := hc i (b.bx.resolution.height - 1) (by omega) (by omega)
    rw [t1, t2, u1, u2]
    unfold box_bx box_by
    refine ⟨?_, ?_, ?_, ?_⟩ <;> (split_ifs <;> first | rfl | omega)

/-- C1 at a 4 by 3 pair of grids filled with 7: the left and right cells of row 1
and the top and bottom cells of column 2. -/
theorem box_bounds_inward_witness :
    ∃ b', box_bounds ({ bx := constant_grid 4 3 7, by_ := constant_grid 4 3 7 } : bounds_t Int)
        = Except.ok b' ∧
      (array2f_get b'.bx 0 1 = Except.ok 1 ∧ array2f_get b'.by_ 0 1 = Except.ok 0 ∧
        array2f_get b'.bx 3 1 = Except.ok (-1) ∧ array2f_get b'.by_ 3 1 = Except.ok 0) ∧
      (array2f_get b'.bx 2 0 = Except.ok 0 ∧ array2f_get b'.by_ 2 0 = Except.ok 1 ∧
        array2f_get b'.bx 2 2 = Except.ok 0 ∧ array2f_get b'.by_ 2 2 = Except.ok (-1)) := by
  obtain ⟨b', hb', hrow, hcol⟩ :=
    box_bounds_inward ({ bx := constant_grid 4 3 7, by_ := constant_grid 4 3 7 } : bounds_t Int)
      (by decide) (by decide) rfl (by decide) (by decide)
  exact ⟨b', hb', hrow 1 (by decide) (by decide), hcol 2 (by decide) (by decide)⟩

/-- C2: when every cell of `bx` and `by` is zero before the call (grids of one
size, at least 2 by 2), after `box_bounds` every non-corner border cell holds
a vector with `bx * bx + by * by = 1`, and every corner cell and every
non-border cell holds the zero vector. -/
theorem box_bounds_magnitude {α : Type} [Ring α] (b : bounds_t α)
    (hbx : b.bx.wf) (hby : b.by_.wf) (hres : b.by_.resolution = b.bx.resolution)
    (hw : 2 ≤ b.bx.resolution.width) (hh : 2 ≤ b.bx.resolution.height)
    (hzero : ∀ x y, x < b.bx.resolution.width → y < b.bx.resolution.height →
      array2f_get b.bx x y = Except.ok 0 ∧ array2f_get b.by_ x y = Except.ok 0) :
    ∃ b', box_bounds b = Except.ok b' ∧
      ∀ x y, x < b.bx.resolution.width → y < b.bx.resolution.height →
        ∃ vx vy, array2f_get b'.bx x y = Except.ok vx ∧ array2f_get b'.by_ x y = Except.ok vy ∧
          if is_border b.bx.resolution.width b.bx.resolution.height x y ∧
              ¬ is_corner b.bx.resolution.width b.bx.resolution.height x y
          then vx * vx + vy * vy = 1 else vx = 0 ∧ vy = 0 := by
  obtain ⟨b', hb', _, _, hc⟩ := box_bounds_cells b hbx hby hres hw hh
  refine ⟨b', hb', ?_⟩
  intro x y hx hy
  obtain ⟨cx, cy⟩ := hc x y hx hy
  obtain ⟨zx, zy⟩ := hzero x y hx hy
  rw [cx, cy, zx, zy]
  unfold box_bx box_by is_border is_corner
  by_cases c1 : 1 ≤ x ∧ x < b.bx.resolution.width - 1 ∧ y = 0
  · refine ⟨0, 1, ?_, ?_, ?_⟩
    · rw [if_pos ⟨c1.1, c1.2.1, Or.inl c1.2.2⟩]
    · rw [if_pos c1]
    · rw [if_pos (by omega)]; simp
  by_cases c2 : 1 ≤ x ∧ x < b.bx.resolution.width - 1 ∧ y = b.bx.resolution.height - 1
  · refine ⟨0, -1, ?_, ?_, ?_⟩
    · rw [if_pos ⟨c2.1, c2.2.1, Or.inr c2.2.2⟩]
    · rw [if_neg c1, if_pos c2]
    · rw [if_pos (by omega)]; simp
  have c12 : ¬ (1 ≤ x ∧ x < b.bx.resolution.width - 1 ∧
      (y = 0 ∨ y = b.bx.resolution.height - 1)) := by
    rintro ⟨h1, h2, h3 | h3⟩
    · exact c1 ⟨h1, h2, h3⟩
    · exact c2 ⟨h1, h2, h3⟩
  by_cases c3 : 1 ≤ y ∧ y < b.bx.resolution.height - 1 ∧ x = 0
  · refine ⟨1, 0, ?_, ?_, ?_⟩
    · rw [if_neg c12, if_pos c3]
    · rw [if_neg c1, if_neg c2, if_pos ⟨c3.1, c3.2.1, Or.inl c3.2.2⟩]
    · rw [if_pos (by omega)]; simp
  by_cases c4 : 1 ≤ y ∧ y < b.bx.resolution.height - 1 ∧ x = b.bx.resolution.width - 1
  · refine ⟨-1, 0, ?_, ?_, ?_⟩
    · rw [if_neg c12, if_neg c3, if_pos c4]
    · rw [if_neg c1, if_neg c2, if_pos ⟨c4.1, c4.2.1, Or.inr c4.2.2⟩]
    · rw [if_pos (by omega)]; simp
  refine ⟨0, 0, ?_, ?_, ?_⟩
  · rw [if_neg c12, if_neg c3, if_neg c4]
  · rw [if_neg c1, if_neg c2, if_neg (by omega)]
  · rw [if_neg (by omega)]; exact ⟨rfl, rfl⟩

/-- C3: `box_bounds` changes neither a corner cell nor a non-border cell: each
holds in `bx` and in `by` what it held before the call, whatever that was. -/
theorem box_bounds_frame {α : Type} [Zero α] [One α] [Neg α] (b : bounds_t α)
    (hbx : b.bx.wf) (hby : b.by_.wf) (hres : b.by_.resolution = b.bx.resolution)
    (hw : 2 ≤ b.bx.resolution.width) (hh : 2 ≤ b.bx.resolution.height) :
    ∃ b', box_bounds b = Except.ok b' ∧
      ∀ x y, x < b.bx.resolution.width → y < b.bx.resolution.height →
        (is_corner b.bx.resolution.width b.bx.resolution.height x y ∨
          ¬ is_border b.bx.resolution.width b.bx.resolution.height x y) →
        array2f_get b'.bx x y = array2f_get b.bx x y ∧
        array2f_get b'.by_ x y = array2f_get b.by_ x y := by
  obtain ⟨b', hb', _, _, hc⟩ := box_bounds_cells b hbx hby hres hw hh
  refine ⟨b', hb', ?_⟩
  intro x y hx hy hxy
  obtain ⟨cx, cy⟩ := hc x y hx hy
  rw [cx, cy]
  unfold is_border is_corner at hxy
  unfold box_bx box_by
  constructor <;> (split_ifs <;> first | rfl | omega)

/-- C2 at the 3 by 3 pair of zero grids. -/
theorem box_bounds_magnitude_witness :
    ∃ b', box_bounds ({ bx := constant_grid 3 3 0, by_ := constant_grid 3 3 0 } : bounds_t Int)
        = Except.ok b' ∧
      ∀ x y, x < 3 → y < 3 →
        ∃ vx vy, array2f_get b'.bx x y = Except.ok vx ∧ array2f_get b'.by_ x y = Except.ok vy ∧
          if is_border 3 3 x y ∧ ¬ is_corner 3 3 x y
          then vx * vx + vy * vy = 1 else vx = 0 ∧ vy = 0 :=
  box_bounds_magnitude ({ bx := constant_grid 3 3 0, by_ := constant_grid 3 3 0 } : bounds_t Int)
    (by decide) (by decide) rfl (by decide) (by decide)
    (fun x y hx hy => by
      have hx' : x < 3 := hx
      have hy' : y < 3 := hy
      interval_cases x <;> interval_cases y <;> decide)

/-- C3 at a 3 by 3 pair of grids filled with 7 and 9: the corner `(2, 0)` and the
centre `(1, 1)` keep their values. -/
theorem box_bounds_frame_witness :
    ∃ b', box_bounds ({ bx := constant_grid 3 3 7, by_ := constant_grid 3 3 9 } : bounds_t Int)
        = Except.ok b' ∧
      (array2f_get b'.bx 2 0 = Except.ok 7 ∧ array2f_get b'.by_ 2 0 = Except.ok 9) ∧
      (array2f_get b'.bx 1 1 = Except.ok 7 ∧ array2f_get b'.by_ 1 1 = Except.ok 9) := by
  obtain ⟨b', hb', hc⟩ :=
    box_bounds_frame ({ bx := constant_grid 3 3 7, by_ := constant_grid 3 3 9 } : bounds_t Int)
      (by decide) (by decide) rfl (by decide) (by decide)
  exact ⟨b', hb', hc 2 0 (by decide) (by decide) (by decide),
    hc 1 1 (by decide) (by decide) (by decide)⟩

/-! ## Nested loops -/

theorem for_range_empty {σ : Type} (top lo hi : Nat) (body : Nat → σ → Except fault σ)
    (s : σ) (h : hi ≤ lo) (ht : lo ≤ top) : for_range top lo hi body s = Except.ok s := by
  have e : hi - lo = 0 := by omega
  unfold for_range
  rw [e]
  simp [for_loop, ht]

theorem for_range2_inv {σ : Type} (top lo1 hi1 lo2 hi2 : Nat)
    (body : Nat → Nat → σ → Except fault σ) (Q : Nat → Nat → σ → Prop) (s : σ)
    (h1 : lo1 ≤ hi1) (h1t : hi1 ≤ top) (h2 : lo2 ≤ hi2) (h2t : hi2 ≤ top)
    (h0 : Q lo1 lo2 s)
    (hstep : ∀ a b t, lo1 ≤ a → a < hi1 → lo2 ≤ b → b < hi2 → Q a b t →
      ∃ t', body a b t = Except.ok t' ∧ Q a (b + 1) t')
    (hrow : ∀ a t, lo1 ≤ a → a < hi1 → Q a hi2 t → Q (a + 1) lo2 t) :
    ∃ s', for_range top lo1 hi1 (fun a u => for_range top lo2 hi2 (body a) u) s
        = Except.ok s' ∧ Q hi1 lo2 s' := by
  apply for_range_inv top lo1 hi1 _ (fun a u => Q a lo2 u) s h1 h1t h0
  intro a t ha1 ha2 hQ
  obtain ⟨t', ht', hQ'⟩ := for_range_inv top lo2 hi2 (body a) (fun b u => Q a b u) t h2 h2t hQ
    (fun b u hb1 hb2 hu => hstep a b u ha1 ha2 hb1 hb2 hu)
  exact ⟨t', ht', hrow a t' ha1 ha2 hQ'⟩

/-! ## `alpha_to_array2f` -/

theorem pixel_index_lt {im : image} (hwf : im.wf) {x y : Nat}
    (hx : x < im.resolution.width) (hy : y < im.resolution.height) :
    x + y * im.stride < im.buffer.length := by
  obtain ⟨h1, h2, _⟩ := hwf
  rw [h2]
  have h3 : (y + 1) * im.stride ≤ im.resolution.height * im.stride :=
    Nat.mul_le_mul_right _ (by omega)
  have h4 : (y + 1) * im.stride = y * im.stride + im.stride := by ring
  have h5 : im.stride * im.resolution.height = im.resolution.height * im.stride :=
    Nat.mul_comm _ _
  omega

theorem image_pixel_ok {im : image} (hwf : im.wf) {x y : Nat}
    (hx : x < im.resolution.width) (hy : y < im.resolution.height) :
    ∃ c, image_pixel im x y = Except.ok c ∧ get_alpha c = alpha_at im x y := by
  have hl := pixel_index_lt hwf hx hy
  refine ⟨im.buffer[x + y * im.stride], ?_, ?_⟩
  · simp [image_pixel, List.getElem?_eq_getElem hl]
  · simp [alpha_at, image_pixel, List.getElem?_eq_getElem hl]

theorem alpha_to_array2f_cells {α : Type} [NatCast α] (im : image) (a : array2f α)
    (him : im.wf) (ha : a.wf) (hw : im.resolution.width ≤ a.resolution.width)
    (hh : im.resolution.height ≤ a.resolution.height) :
    ∃ a', alpha_to_array2f im a = Except.ok a' ∧ a'.like a ∧
      ∀ x y, x < a.resolution.width → y < a.resolution.height →
        array2f_get a' x y =
          if x < im.resolution.width ∧ y < im.resolution.height
          then Except.ok ((alpha_at im x y : Nat) : α) else array2f_get a x y := by
  have hwt : im.resolution.width ≤ SIZE_MAX := by
    have := him.2.2.1; unfold SIZE_MAX; omega
  have hht : im.resolution.height ≤ SIZE_MAX := by
    have := him.2.2.2.1; unfold SIZE_MAX; omega
  obtain ⟨a', ha', hl, hc⟩ := for_range2_inv SIZE_MAX 0 im.resolution.height 0
    im.resolution.width
    (fun y x (s : array2f α) => do
      let color ← image_pixel im x y
      array2f_set s x y ((get_alpha color : Nat) : α))
    (alpha_inv im a) a (Nat.zero_le _) hht (Nat.zero_le _) hwt
    ⟨like_refl ha, fun x' y' _ _ => by rw [if_neg (by omega)]⟩
    (fun y x t _ hy _ hx ht => by
      obtain ⟨lt, ct⟩ := ht
      obtain ⟨c, hc, hca⟩ := image_pixel_ok him hx hy
      have hxa : x < t.resolution.width := by rw [lt.1]; omega
      have hya : y < t.resolution.height := by rw [lt.1]; omega
      refine ⟨t.put x y ((get_alpha c : Nat) : α), ?_, like_put lt _ _ _, ?_⟩
      · simp only [hc, bind, Except.bind]
        exact array2f_set_ok lt.2.2 hxa hya _
      · intro x' y' hx' hy'
        rw [get_put_like lt (by omega) (by omega) _ hx' hy', ct x' y' hx' hy', hca]
        split_ifs <;> first | rfl | omega | (simp_all) )
    (fun y t _ _ ht => by
      obtain ⟨lt, ct⟩ := ht
      refine ⟨lt, fun x' y' hx' hy' => ?_⟩
      rw [ct x' y' hx' hy']
      split_ifs <;> first | rfl | omega)
  refine ⟨a', ha', hl, fun x y hx hy => ?_⟩
  rw [hc x y hx hy]
  split_ifs <;> first | rfl | omega

/-! ## `array2f_filter` and `create_array2f` -/

theorem array2f_filter_like {α : Type} {a : array2f α} (ha : a.wf) (fn : α → α) :
    (array2f_filter a fn).like a := by
  refine ⟨rfl, rfl, ?_⟩
  simpa [array2f_filter, array2f.wf] using ha

theorem array2f_get_filter {α : Type} {a : array2f α} (ha : a.wf) (fn : α → α) {x y : Nat}
    (hx : x < a.resolution.width) (hy : y < a.resolution.height) {v : α}
    (hv : array2f_get a x y = Except.ok v) :
    array2f_get (array2f_filter a fn) x y = Except.ok (fn v) := by
  have hl := cell_index_lt ha hx hy
  have hxs : x < a.stride := Nat.lt_of_lt_of_le hx ha.1
  have hm : (x + y * a.stride) % a.stride = x := by
    rw [Nat.add_mul_mod_self_right, Nat.mod_eq_of_lt hxs]
  have hd : (x + y * a.stride) / a.stride = y := by
    rw [Nat.add_mul_div_right _ _ (by omega), Nat.div_eq_of_lt hxs, Nat.zero_add]
  have hv' : a.buffer[x + y * a.stride] = v := by
    simp [array2f_get, hx, hy, List.getElem?_eq_getElem hl] at hv
    exact hv
  simp [array2f_get, array2f_filter, hx, hy, List.getElem?_eq_getElem hl, hm, hd, hv']

theorem create_array2f_wf {α : Type} [Zero α] {w h : Nat} (hw : w < 2 ^ 64) (hh : h < 2 ^ 64)
    (hwh : w * h < 2 ^ 64) : (create_array2f w h : array2f α).wf := by
  unfold array2f.wf create_array2f
  refine ⟨le_refl _, ?_, hw, hh, hwh⟩
  simp

/-! ## `bounds_from_image` -/

theorem bounds_from_image_cell_ok {α : Type} [Sub α] (src : array2f α) (m : Nat → Nat → α)
    (hsrc : ∀ x y, x < src.resolution.width → y < src.resolution.height →
      array2f_get src x y = Except.ok (m x y))
    (t : bounds_t α) (j i : Nat) (hi : i + 1 < src.resolution.width)
    (hj : j + 1 < src.resolution.height)
    (htx : t.bx.wf) (hty : t.by_.wf)
    (hix : i < t.bx.resolution.width) (hjx : j < t.bx.resolution.height)
    (hiy : i < t.by_.resolution.width) (hjy : j < t.by_.resolution.height) :
    bounds_from_image_cell src j i t = Except.ok
      { bx := t.bx.put i j (m (i + 1) j - m i j),
        by_ := t.by_.put i j (m i (j + 1) - m i j) } := by
  obtain ⟨gx, gy⟩ := t
  simp only at htx hty hix hjx hiy hjy
  unfold bounds_from_image_cell
  rw [hsrc (i + 1) j hi (by omega), hsrc i j (by omega) (by omega),
    hsrc i (j + 1) (by omega) hj]
  simp only [bind, Except.bind, pure, Except.pure]
  rw [set_bx_ok gx gy htx hix hjx]
  simp only []
  rw [set_by_ok _ gy hty hiy hjy]

theorem bind_ok {ε α β : Type} (a : α) (f : α → Except ε β) :
    (Except.ok a : Except ε α).bind f = f a := rfl

theorem difference_loops {α : Type} [Sub α] (src : array2f α) (m : Nat → Nat → α)
    (hsrc : ∀ x y, x < src.resolution.width → y < src.resolution.height →
      array2f_get src x y = Except.ok (m x y))
    (b : bounds_t α) (hbx : b.bx.wf) (hby : b.by_.wf)
    (hres : b.by_.resolution = b.bx.resolution) (n k : Nat)
    (hn : n + 1 ≤ src.resolution.width) (hk : k + 1 ≤ src.resolution.height)
    (hnW : n ≤ b.bx.resolution.width) (hkH : k ≤ b.bx.resolution.height)
    (hnt : n ≤ INT_MAX) (hkt : k ≤ INT_MAX) :
    ∃ b', for_range INT_MAX 0 k
        (fun j s => for_range INT_MAX 0 n (bounds_from_image_cell src j) s) b = Except.ok b' ∧
      difference_inv m n b k 0 b' := by
  apply for_range2_inv INT_MAX 0 k 0 n (bounds_from_image_cell src) (difference_inv m n b) b
    (Nat.zero_le _) hkt (Nat.zero_le _) hnt
  · exact ⟨like_refl hbx, like_refl hby, fun x y _ _ => by
      constructor <;> rw [if_neg (by omega)]⟩
  · intro j i t _ hj _ hi ht
    obtain ⟨lx, ly, ct⟩ := ht
    have hix : i < b.bx.resolution.width := by omega
    have hjx : j < b.bx.resolution.height := by omega
    refine ⟨_, bounds_from_image_cell_ok src m hsrc t j i (by omega) (by omega) lx.2.2 ly.2.2
      (by rw [lx.1]; exact hix) (by rw [lx.1]; exact hjx)
      (by rw [ly.1, hres]; exact hix) (by rw [ly.1, hres]; exact hjx),
      like_put lx _ _ _, like_put ly _ _ _, ?_⟩
    intro x y hx hy
    obtain ⟨cx, cy⟩ := ct x y hx hy
    constructor
    · rw [get_put_like lx hix hjx _ hx hy, cx]
      split_ifs <;> first | rfl | omega | simp_all
    · rw [get_put_like ly (by rw [hres]; exact hix) (by rw [hres]; exact hjx) _
        (by rw [hres]; exact hx) (by rw [hres]; exact hy), cy]
      split_ifs <;> first | rfl | omega | simp_all
  · intro j t _ _ ht
    obtain ⟨lx, ly, ct⟩ := ht
    refine ⟨lx, ly, fun x y hx hy => ?_⟩
    obtain ⟨cx, cy⟩ := ct x y hx hy
    rw [cx, cy]
    constructor <;> (split_ifs <;> first | rfl | omega)

/-- The result of `bounds_from_image` for an image of at least one pixel that
fits in the bounds grids: the call returns, the grids keep their shape, the cells
`(x, y)` with `x + 1 < width` and `y + 1 < height` of the image hold the forward
differences of the mask, and every other cell holds what it held. -/
theorem bounds_from_image_cells {α : Type} [LinearOrderedRing α] (b : bounds_t α) (im : image)
    (him : im.wf) (hbx : b.bx.wf) (hby : b.by_.wf)
    (hres : b.by_.resolution = b.bx.resolution)
    (hw1 : 1 ≤ im.resolution.width) (hh1 : 1 ≤ im.resolution.height)
    (hwW : im.resolution.width ≤ b.bx.resolution.width)
    (hhH : im.resolution.height ≤ b.bx.resolution.height)
    (hwi : im.resolution.width ≤ 2 ^ 31) (hhi : im.resolution.height ≤ 2 ^ 31) :
    ∃ b', bounds_from_image b im = Except.ok b' ∧ b'.bx.like b.bx ∧ b'.by_.like b.by_ ∧
      ∀ x y, x < b.bx.resolution.width → y < b.bx.resolution.height →
        array2f_get b'.bx x y =
          (if x + 1 < im.resolution.width ∧ y + 1 < im.resolution.height
           then Except.ok (mask im (x + 1) y - mask im x y) else array2f_get b.bx x y) ∧
        array2f_get b'.by_ x y =
          (if x + 1 < im.resolution.width ∧ y + 1 < im.resolution.height
           then Except.ok (mask im x (y + 1) - mask im x y) else array2f_get b.by_ x y) := by
  have hwh : im.resolution.width * im.resolution.height < 2 ^ 64 :=
    Nat.lt_of_le_of_lt (Nat.mul_le_mul_right _ him.1) him.2.2.2.2
  have h0 : (create_array2f im.resolution.width im.resolution.height : array2f α).wf :=
    create_array2f_wf him.2.2.1 him.2.2.2.1 hwh
  obtain ⟨s1, hs1, l1, c1⟩ := alpha_to_array2f_cells im
    (create_array2f im.resolution.width im.resolution.height : array2f α) him h0
    (le_refl _) (le_refl _)
  have hr1 : s1.resolution = { width := im.resolution.width, height := im.resolution.height } :=
    l1.1
  have l2 := array2f_filter_like l1.2.2 (threshold : α → α)
  have hr2 : (array2f_filter s1 (threshold : α → α)).resolution =
      { width := im.resolution.width, height := im.resolution.height } := l2.1.trans hr1
  have hsrc : ∀ x y, x < (array2f_filter s1 (threshold : α → α)).resolution.width →
      y < (array2f_filter s1 (threshold : α → α)).resolution.height →
      array2f_get (array2f_filter s1 (threshold : α → α)) x y = Except.ok (mask im x y) := by
    intro x y hx hy
    rw [hr2] at hx hy
    simp only at hx hy
    have hg := c1 x y hx hy
    rw [if_pos ⟨hx, hy⟩] at hg
    exact array2f_get_filter l1.2.2 _ (by rw [hr1]; exact hx) (by rw [hr1]; exact hy) hg
  have hIM : INT_MAX = 2 ^ 31 - 1 := rfl
  obtain ⟨b', hb', lx, ly, cb⟩ := difference_loops (array2f_filter s1 (threshold : α → α))
    (mask im) hsrc b hbx hby hres (im.resolution.width - 1) (im.resolution.height - 1)
    (by rw [hr2]; simp only; omega) (by rw [hr2]; simp only; omega) (by omega) (by omega)
    (by omega) (by omega)
  have e1 : size_sub (array2f_filter s1 (threshold : α → α)).resolution.height 1 =
      im.resolution.height - 1 := by
    rw [hr2]; exact size_sub_of_le him.2.2.2.1 hh1
  have e2 : size_sub (array2f_filter s1 (threshold : α → α)).resolution.width 1 =
      im.resolution.width - 1 := by
    rw [hr2]; exact size_sub_of_le him.2.2.1 hw1
  have hdef : bounds_from_image b im =
      (alpha_to_array2f im
        (create_array2f im.resolution.width im.resolution.height : array2f α)).bind
      (fun s => for_range INT_MAX 0
        (size_sub (array2f_filter s (threshold : α → α)).resolution.height 1)
        (fun j u => for_range INT_MAX 0
          (size_sub (array2f_filter s (threshold : α → α)).resolution.width 1)
          (bounds_from_image_cell (array2f_filter s (threshold : α → α)) j) u) b) := rfl
  refine ⟨b', ?_, lx, ly, fun x y hx hy => ?_⟩
  · rw [hdef, hs1, bind_ok, e1, e2]
    exact hb'
  · obtain ⟨cx, cy⟩ := cb x y hx hy
    rw [cx, cy]
    constructor <;> (split_ifs <;> first | rfl | omega)

/-! ## Claims about `threshold` and `bounds_from_image` -/

theorem threshold_zero_or_one {α : Type} [LinearOrderedRing α] (value : α) :
    threshold value = 0 ∨ threshold value = 1 := by
  unfold threshold
  split_ifs
  · exact Or.inr rfl
  · exact Or.inl rfl

theorem mask_zero_or_one {α : Type} [LinearOrderedRing α] (im : image) (x y : Nat) :
    (mask im x y : α) = 0 ∨ (mask im x y : α) = 1 :=
  threshold_zero_or_one _

/-- C4: for an image of at least one pixel that fits in the bounds grids, after
`bounds_from_image` every non-border cell `(i, j)` of the image
(`1 <= i <= w - 2`, `1 <= j <= h - 2`) holds `bx = s[i+1,j] - s[i,j]` and
`by = s[i,j+1] - s[i,j]`, where `s` is the thresholded alpha of the image. -/
theorem bounds_from_image_differences {α : Type} [LinearOrderedRing α] (b : bounds_t α)
    (im : image) (him : im.wf) (hbx : b.bx.wf) (hby : b.by_.wf)
    (hres : b.by_.resolution = b.bx.resolution)
    (hw1 : 1 ≤ im.resolution.width) (hh1 : 1 ≤ im.resolution.height)
    (hwW : im.resolution.width ≤ b.bx.resolution.width)
    (hhH : im.resolution.height ≤ b.bx.resolution.height)
    (hwi : im.resolution.width ≤ 2 ^ 31) (hhi : im.resolution.height ≤ 2 ^ 31) :
    ∃ b', bounds_from_image b im = Except.ok b' ∧
      ∀ i j, 1 ≤ i → i + 2 ≤ im.resolution.width → 1 ≤ j → j + 2 ≤ im.resolution.height →
        array2f_get b'.bx i j = Except.ok (mask im (i + 1) j - mask im i j) ∧
        array2f_get b'.by_ i j = Except.ok (mask im i (j + 1) - mask im i j) := by
  obtain ⟨b', hb', _, _, hc⟩ :=
    bounds_from_image_cells b im him hbx hby hres hw1 hh1 hwW hhH hwi hhi
  refine ⟨b', hb', fun i j _ hi _ hj => ?_⟩
  obtain ⟨cx, cy⟩ := hc i j (by omega) (by omega)
  have hcond : i + 1 < im.resolution.width ∧ j + 1 < im.resolution.height :=
    ⟨by omega, by omega⟩
  rw [cx, cy, if_pos hcond, if_pos hcond]
  exact ⟨rfl, rfl⟩

/-- C4 at the 3 by 3 image with an opaque centre, in 4 by 4 grids: at the
non-border cell `(1, 1)` both differences are `0 - 1 = -1`. -/
theorem bounds_from_image_differences_witness :
    ∃ b', bounds_from_image
        ({ bx := constant_grid 4 4 0, by_ := constant_grid 4 4 0 } : bounds_t Int) centre_image
        = Except.ok b' ∧
      array2f_get b'.bx 1 1 = Except.ok (-1) ∧ array2f_get b'.by_ 1 1 = Except.ok (-1) := by
  obtain ⟨b', hb', hc⟩ := bounds_from_image_differences
    ({ bx := constant_grid 4 4 0, by_ := constant_grid 4 4 0 } : bounds_t Int) centre_image
    (by decide) (by decide) (by decide) rfl (by decide) (by decide) (by decide) (by decide)
    (by decide) (by decide)
  exact ⟨b', hb', hc 1 1 (by decide) (by decide) (by decide) (by decide)⟩

/-- C5: `threshold` returns exactly 0 or 1, and on an integer alpha value `v`
it returns 1 when `v >= 129` and 0 otherwise; so alpha 128 gives 0 and alpha 129
gives 1. -/
theorem threshold_cutoff {α : Type} [LinearOrderedRing α] :
    (∀ value : α, threshold value = 0 ∨ threshold value = 1) ∧
    (∀ v : Nat, threshold ((v : Nat) : α) = if 129 ≤ v then 1 else 0) ∧
    threshold (128 : α) = 0 ∧ threshold (129 : α) = 1 := by
  have hnat : ∀ v : Nat, threshold ((v : Nat) : α) = if 129 ≤ v then 1 else 0 := by
    intro v
    unfold threshold
    have h : ((v : Nat) : α) > 128 ↔ 129 ≤ v := by
      have : (128 : α) = ((128 : Nat) : α) := by norm_cast
      rw [this, gt_iff_lt, Nat.cast_lt]
      omega
    by_cases hv : 129 ≤ v
    · rw [if_pos (h.mpr hv), if_pos hv]
    · rw [if_neg (fun c => hv (h.mp c)), if_neg hv]
  refine ⟨threshold_zero_or_one, hnat, ?_, ?_⟩
  · have := hnat 128
    simpa using this
  · have := hnat 129
    simpa using this

/-- C7: for every cell that `bounds_from_image` writes (`i + 1 < w`, `j + 1 < h`
for a `w` by `h` image), the stored vector is zero exactly when the mask has one
value at `(i, j)`, `(i + 1, j)` and `(i, j + 1)`, so it is non-zero exactly when
the mask changes towards the right or the lower neighbour, and each component is
`-1`, `0` or `1`. -/
theorem bounds_from_image_edges {α : Type} [LinearOrderedRing α] (b : bounds_t α)
    (im : image) (him : im.wf) (hbx : b.bx.wf) (hby : b.by_.wf)
    (hres : b.by_.resolution = b.bx.resolution)
    (hw1 : 1 ≤ im.resolution.width) (hh1 : 1 ≤ im.resolution.height)
    (hwW : im.resolution.width ≤ b.bx.resolution.width)
    (hhH : im.resolution.height ≤ b.bx.resolution.height)
    (hwi : im.resolution.width ≤ 2 ^ 31) (hhi : im.resolution.height ≤ 2 ^ 31) :
    ∃ b', bounds_from_image b im = Except.ok b' ∧
      ∀ i j, i + 1 < im.resolution.width → j + 1 < im.resolution.height →
        ∃ vx vy : α, array2f_get b'.bx i j = Except.ok vx ∧
          array2f_get b'.by_ i j = Except.ok vy ∧
          ((vx = 0 ∧ vy = 0) ↔
            ((mask im (i + 1) j : α) = mask im i j ∧ (mask im i (j + 1) : α) = mask im i j)) ∧
          ((vx ≠ 0 ∨ vy ≠ 0) ↔
            ((mask im (i + 1) j : α) ≠ mask im i j ∨ (mask im i (j + 1) : α) ≠ mask im i j)) ∧
          (vx = -1 ∨ vx = 0 ∨ vx = 1) ∧ (vy = -1 ∨ vy = 0 ∨ vy = 1) := by
  obtain ⟨b', hb', _, _, hc⟩ :=
    bounds_from_image_cells b im him hbx hby hres hw1 hh1 hwW hhH hwi hhi
  refine ⟨b', hb', fun i j hi hj => ?_⟩
  obtain ⟨cx, cy⟩ := hc i j (by omega) (by omega)
  rw [if_pos ⟨hi, hj⟩] at cx cy
  refine ⟨_, _, cx, cy, ?_, ?_, ?_, ?_⟩
  · rw [sub_eq_zero, sub_eq_zero]
  · rw [Ne, Ne, sub_eq_zero, sub_eq_zero]
  · rcases mask_zero_or_one (α := α) im (i + 1) j with h1 | h1 <;>
      rcases mask_zero_or_one (α := α) im i j with h2 | h2 <;> rw [h1, h2] <;> simp
  · rcases mask_zero_or_one (α := α) im i (j + 1) with h1 | h1 <;>
      rcases mask_zero_or_one (α := α) im i j with h2 | h2 <;> rw [h1, h2] <;> simp

/-- C7 at the 3 by 3 image with an opaque centre, in 4 by 4 grids, at the
cell `(0, 1)`. -/
theorem bounds_from_image_edges_witness :
    ∃ b', bounds_from_image
        ({ bx := constant_grid 4 4 0, by_ := constant_grid 4 4 0 } : bounds_t Int) centre_image
        = Except.ok b' ∧
      ∃ vx vy : Int, array2f_get b'.bx 0 1 = Except.ok vx ∧
        array2f_get b'.by_ 0 1 = Except.ok vy ∧
        ((vx = 0 ∧ vy = 0) ↔
          ((mask centre_image 1 1 : Int) = mask centre_image 0 1 ∧
            (mask centre_image 0 2 : Int) = mask centre_image 0 1)) ∧
        ((vx ≠ 0 ∨ vy ≠ 0) ↔
          ((mask centre_image 1 1 : Int) ≠ mask centre_image 0 1 ∨
            (mask centre_image 0 2 : Int) ≠ mask centre_image 0 1)) ∧
        (vx = -1 ∨ vx = 0 ∨ vx = 1) ∧ (vy = -1 ∨ vy = 0 ∨ vy = 1) := by
  obtain ⟨b', hb', hc⟩ := bounds_from_image_edges
    ({ bx := constant_grid 4 4 0, by_ := constant_grid 4 4 0 } : bounds_t Int) centre_image
    (by decide) (by decide) (by decide) rfl (by decide) (by decide) (by decide) (by decide)
    (by decide) (by decide)
  exact ⟨b', hb', hc 0 1 (by decide) (by decide)⟩

/-- C8, counterexample: a 2 by 2 image against 3 by 3 grids. The sizes differ,
and `bounds_from_image` returns without an error, having written the cell
`(0, 0)` of both grids. -/
theorem bounds_from_image_mismatch_accepted :
    dot_image.resolution ≠ (constant_grid 3 3 (0 : Int)).resolution ∧
    bounds_from_image
      ({ bx := constant_grid 3 3 0, by_ := constant_grid 3 3 0 } : bounds_t Int) dot_image
      = Except.ok
        { bx := { resolution := { width := 3, height := 3 }, stride := 3,
                  buffer := [-1, 0, 0, 0, 0, 0, 0, 0, 0] },
          by_ := { resolution := { width := 3, height := 3 }, stride := 3,
                   buffer := [-1, 0, 0, 0, 0, 0, 0, 0, 0] } } := by
  decide

/-- C8, amended: `bounds_from_image` compares no sizes. For every image of at
least one pixel that is no larger than the bounds grids, of the same size or
not, it returns without an error and the grids keep their shape. -/
theorem bounds_from_image_returns {α : Type} [LinearOrderedRing α] (b : bounds_t α)
    (im : image) (him : im.wf) (hbx : b.bx.wf) (hby : b.by_.wf)
    (hres : b.by_.resolution = b.bx.resolution)
    (hw1 : 1 ≤ im.resolution.width) (hh1 : 1 ≤ im.resolution.height)
    (hwW : im.resolution.width ≤ b.bx.resolution.width)
    (hhH : im.resolution.height ≤ b.bx.resolution.height)
    (hwi : im.resolution.width ≤ 2 ^ 31) (hhi : im.resolution.height ≤ 2 ^ 31) :
    ∃ b', bounds_from_image b im = Except.ok b' ∧
      b'.bx.resolution = b.bx.resolution ∧ b'.by_.resolution = b.by_.resolution := by
  obtain ⟨b', hb', lx, ly, _⟩ :=
    bounds_from_image_cells b im him hbx hby hres hw1 hh1 hwW hhH hwi hhi
  exact ⟨b', hb', lx.1, ly.1⟩

/-- C8, amended, at a 3 by 3 image against 5 by 4 grids. -/
theorem bounds_from_image_returns_witness :
    centre_image.resolution ≠ (constant_grid 5 4 (0 : Int)).resolution ∧
    ∃ b', bounds_from_image
        ({ bx := constant_grid 5 4 0, by_ := constant_grid 5 4 0 } : bounds_t Int) centre_image
        = Except.ok b' ∧
      b'.bx.resolution = { width := 5, height := 4 } ∧
      b'.by_.resolution = { width := 5, height := 4 } :=
  ⟨by decide, bounds_from_image_returns
    ({ bx := constant_grid 5 4 0, by_ := constant_grid 5 4 0 } : bounds_t Int) centre_image
    (by decide) (by decide) (by decide) rfl (by decide) (by decide) (by decide) (by decide)
    (by decide) (by decide)⟩

theorem for_loop_congr {σ : Type} (top : Nat) (f g : Nat → σ → Except fault σ) (n : Nat) :
    ∀ (c : Nat) (s : σ), (∀ k t, c ≤ k → k < c + n → f k t = g k t) →
      for_loop top f n c s = for_loop top g n c s := by
  induction n with
  | zero => intro c s _; rfl
  | succ n ih =>
    intro c s h
    unfold for_loop
    rw [h c s (le_refl c) (by omega)]
    have hrec : ∀ t, for_loop top f n (c + 1) t = for_loop top g n (c + 1) t :=
      fun t => ih (c + 1) t (fun k u hk hk' => h k u (by omega) (by omega))
    simp only [hrec]

theorem for_range_congr {σ : Type} (top lo hi : Nat) (f g : Nat → σ → Except fault σ) (s : σ)
    (h : ∀ k t, lo ≤ k → k < hi → f k t = g k t) :
    for_range top lo hi f s = for_range top lo hi g s :=
  for_loop_congr top f g (hi - lo) lo s (fun k t hk hk' => h k t hk (by omega))

theorem alpha_to_array2f_congr {α : Type} [NatCast α] (im1 im2 : image)
    (h1 : im1.wf) (h2 : im2.wf) (hres : im2.resolution = im1.resolution)
    (halpha : ∀ x y, x < im1.resolution.width → y < im1.resolution.height →
      alpha_at im1 x y = alpha_at im2 x y) (a : array2f α) :
    alpha_to_array2f im1 a = alpha_to_array2f im2 a := by
  unfold alpha_to_array2f image_height image_width
  rw [hres]
  apply for_range_congr
  intro y t _ hy
  apply for_range_congr
  intro x u _ hx
  obtain ⟨c1, hc1, ha1⟩ := image_pixel_ok h1 hx hy
  obtain ⟨c2, hc2, ha2⟩ := image_pixel_ok h2 (by rw [hres]; exact hx) (by rw [hres]; exact hy)
  simp only [hc1, hc2, bind, Except.bind, ha1, ha2, halpha x y hx hy]

/-- C10: two well-formed images of one resolution whose pixels have the same
alpha at every position, whatever their colour channels, give the same result of
`bounds_from_image` from the same bounds: the same `bx` and `by`, or the same
fault. -/
theorem bounds_from_image_alpha_only {α : Type} [LinearOrderedRing α] (b : bounds_t α)
    (im1 im2 : image) (h1 : im1.wf) (h2 : im2.wf) (hres : im2.resolution = im1.resolution)
    (halpha : ∀ x y, x < im1.resolution.width → y < im1.resolution.height →
      alpha_at im1 x y = alpha_at im2 x y) :
    bounds_from_image b im1 = bounds_from_image b im2 := by
  have hdef : ∀ im : image, bounds_from_image b im =
      (alpha_to_array2f im
        (create_array2f im.resolution.width im.resolution.height : array2f α)).bind
      (fun s => for_range INT_MAX 0
        (size_sub (array2f_filter s (threshold : α → α)).resolution.height 1)
        (fun j u => for_range INT_MAX 0
          (size_sub (array2f_filter s (threshold : α → α)).resolution.width 1)
          (bounds_from_image_cell (array2f_filter s (threshold : α → α)) j) u) b) :=
    fun _ => rfl
  rw [hdef im1, hdef im2, hres, alpha_to_array2f_congr im1 im2 h1 h2 hres halpha]

/-- C10 at the 3 by 3 image with an opaque centre and its recoloured copy. -/
theorem bounds_from_image_alpha_only_witness :
    centre_image ≠ centre_image_red ∧
    bounds_from_image
      ({ bx := constant_grid 4 4 0, by_ := constant_grid 4 4 0 } : bounds_t Int) centre_image =
    bounds_from_image
      ({ bx := constant_grid 4 4 0, by_ := constant_grid 4 4 0 } : bounds_t Int)
      centre_image_red :=
  ⟨by decide, bounds_from_image_alpha_only
    ({ bx := constant_grid 4 4 0, by_ := constant_grid 4 4 0 } : bounds_t Int)
    centre_image centre_image_red (by decide) (by decide) rfl
    (fun x y hx hy => by
      have hx' : x < 3 := hx
      have hy' : y < 3 := hy
      interval_cases x <;> interval_cases y <;> decide)⟩

/-- C15: for an image of at least one pixel that fits in the bounds grids,
`bounds_from_image` writes exactly the cells `(i, j)` with `i + 2 <= w` and
`j + 2 <= h` (`w`, `h` the image size), row 0 and column 0 included: each of
them holds the forward differences of the mask, and every other cell of `bx`
and `by` holds what it held before. -/
theorem bounds_from_image_frame {α : Type} [LinearOrderedRing α] (b : bounds_t α)
    (im : image) (him : im.wf) (hbx : b.bx.wf) (hby : b.by_.wf)
    (hres : b.by_.resolution = b.bx.resolution)
    (hw1 : 1 ≤ im.resolution.width) (hh1 : 1 ≤ im.resolution.height)
    (hwW : im.resolution.width ≤ b.bx.resolution.width)
    (hhH : im.resolution.height ≤ b.bx.resolution.height)
    (hwi : im.resolution.width ≤ 2 ^ 31) (hhi : im.resolution.height ≤ 2 ^ 31) :
    ∃ b', bounds_from_image b im = Except.ok b' ∧
      ∀ x y, x < b.bx.resolution.width → y < b.bx.resolution.height →
        (x + 2 ≤ im.resolution.width ∧ y + 2 ≤ im.resolution.height →
          array2f_get b'.bx x y = Except.ok (mask im (x + 1) y - mask im x y) ∧
          array2f_get b'.by_ x y = Except.ok (mask im x (y + 1) - mask im x y)) ∧
        (¬ (x + 2 ≤ im.resolution.width ∧ y + 2 ≤ im.resolution.height) →
          array2f_get b'.bx x y = array2f_get b.bx x y ∧
          array2f_get b'.by_ x y = array2f_get b.by_ x y) := by
  obtain ⟨b', hb', _, _, hc⟩ :=
    bounds_from_image_cells b im him hbx hby hres hw1 hh1 hwW hhH hwi hhi
  refine ⟨b', hb', fun x y hx hy => ?_⟩
  obtain ⟨cx, cy⟩ := hc x y hx hy
  constructor
  · intro h
    have hcond : x + 1 < im.resolution.width ∧ y + 1 < im.resolution.height :=
      ⟨by omega, by omega⟩
    rw [cx, cy, if_pos hcond, if_pos hcond]
    exact ⟨rfl, rfl⟩
  · intro h
    have hcond : ¬ (x + 1 < im.resolution.width ∧ y + 1 < im.resolution.height) := by omega
    rw [cx, cy, if_neg hcond, if_neg hcond]
    exact ⟨rfl, rfl⟩

/-- C15 at the 2 by 2 image with an opaque pixel `(0, 0)`, in 3 by 3 grids filled
with 7: the cell `(0, 0)` of row 0 and column 0 is written, the cell `(1, 1)` is
not. -/
theorem bounds_from_image_frame_witness :
    ∃ b', bounds_from_image
        ({ bx := constant_grid 3 3 7, by_ := constant_grid 3 3 7 } : bounds_t Int) dot_image
        = Except.ok b' ∧
      (array2f_get b'.bx 0 0 = Except.ok (-1) ∧ array2f_get b'.by_ 0 0 = Except.ok (-1)) ∧
      (array2f_get b'.bx 1 1 = Except.ok 7 ∧ array2f_get b'.by_ 1 1 = Except.ok 7) := by
  obtain ⟨b', hb', hc⟩ := bounds_from_image_frame
    ({ bx := constant_grid 3 3 7, by_ := constant_grid 3 3 7 } : bounds_t Int) dot_image
    (by decide) (by decide) (by decide) rfl (by decide) (by decide) (by decide) (by decide)
    (by decide) (by decide)
  exact ⟨b', hb', (hc 0 0 (by decide) (by decide)).1 (by decide),
    (hc 1 1 (by decide) (by decide)).2 (by decide)⟩

/-! ## `array2f_fill` -/

theorem index_mod_div {s x y : Nat} (hx : x < s) :
    (y * s + x) % s = x ∧ (y * s + x) / s = y := by
  constructor
  · rw [Nat.add_comm, Nat.add_mul_mod_self_right, Nat.mod_eq_of_lt hx]
  · rw [Nat.add_comm, Nat.add_mul_div_right _ _ (by omega), Nat.div_eq_of_lt hx, Nat.zero_add]

theorem index_of_mod_div {s k x y : Nat} (hm : k % s = x) (hd : k / s = y) :
    k = y * s + x := by
  have h := Nat.div_add_mod k s
  rw [hm, hd, Nat.mul_comm] at h
  exact h.symm

theorem row_end_le {s h y : Nat} (hy : y < h) : (y + 1) * s ≤ s * h := by
  rw [Nat.mul_comm s h]
  exact Nat.mul_le_mul_right _ (by omega)

theorem array2f_fill_cell_step {α : Type} (a : array2f α) (ha : a.wf) (value : α)
    (y x : Nat) (hy : y < a.resolution.height) (hx : x < a.resolution.width)
    (st : List α × Nat) (hst : fill_inv a value y x st) :
    ∃ st', array2f_fill_cell value st = Except.ok st' ∧ fill_inv a value y (x + 1) st' := by
  obtain ⟨hlen, hc, hcells⟩ := hst
  obtain ⟨hws, hbl, _, _, hsh⟩ := ha
  have hxs : x < a.stride := by omega
  have hrow := row_end_le (s := a.stride) hy
  have hexp : (y + 1) * a.stride = y * a.stride + a.stride := by ring
  have hclt : st.2 < st.1.length := by rw [hlen, hbl, hc]; omega
  obtain ⟨hm, hd⟩ := index_mod_div (y := y) hxs
  refine ⟨(st.1.set st.2 value, size_add st.2 1), ?_, ?_, ?_, ?_⟩
  · unfold array2f_fill_cell
    rw [if_pos hclt]
  · simp [hlen]
  · simp only [size_add]
    rw [hc, Nat.mod_eq_of_lt (by omega)]
    omega
  · intro k hk
    simp only
    by_cases hkc : k = st.2
    · subst hkc
      rw [List.getElem?_set_self hclt]
      have hf : filled a.resolution.width a.stride y (x + 1) st.2 := by
        unfold filled
        rw [hc, hm, hd]
        exact ⟨hx, Or.inr ⟨rfl, by omega⟩⟩
      rw [if_pos hf]
    · rw [List.getElem?_set_ne (fun h => hkc h.symm), hcells k hk]
      have hiff : filled a.resolution.width a.stride y (x + 1) k ↔
          filled a.resolution.width a.stride y x k := by
        unfold filled
        have hne : ¬ (k % a.stride = x ∧ k / a.stride = y) := by
          rintro ⟨e1, e2⟩
          exact hkc ((index_of_mod_div e1 e2).trans hc.symm)
        generalize k % a.stride = t at *
        generalize k / a.stride = q at *
        omega
      simp only [hiff]

theorem array2f_fill_row_step {α : Type} (a : array2f α) (ha : a.wf) (value : α)
    (y : Nat) (hy : y < a.resolution.height) (st : List α × Nat)
    (hst : fill_inv a value y 0 st) :
    ∃ st', array2f_fill_row a.resolution.width a.stride value st = Except.ok st' ∧
      fill_inv a value (y + 1) 0 st' := by
  have hwt : a.resolution.width ≤ SIZE_MAX := by
    have := ha.2.2.1; unfold SIZE_MAX; omega
  obtain ⟨u, hu, hlen, hc, hcells⟩ := for_range_inv SIZE_MAX 0 a.resolution.width
    (fun _ u => array2f_fill_cell value u) (fun x u => fill_inv a value y x u) st
    (Nat.zero_le _) hwt hst
    (fun x t _ hx ht => array2f_fill_cell_step a ha value y x hy hx t ht)
  obtain ⟨hws, hbl, _, _, hsh⟩ := ha
  have hrow := row_end_le (s := a.stride) hy
  have hexp : (y + 1) * a.stride = y * a.stride + a.stride := by ring
  have hs : a.stride < 2 ^ 64 := by omega
  refine ⟨(u.1, size_add u.2 (size_sub a.stride a.resolution.width)), ?_, hlen, ?_, ?_⟩
  · unfold array2f_fill_row
    rw [hu]
  · simp only [size_add]
    rw [size_sub_of_le hs hws, hc, Nat.mod_eq_of_lt (by omega)]
    omega
  · intro k hk
    simp only
    rw [hcells k hk]
    have hiff : filled a.resolution.width a.stride y a.resolution.width k ↔
        filled a.resolution.width a.stride (y + 1) 0 k := by
      unfold filled
      generalize k % a.stride = t at *
      generalize k / a.stride = q at *
      omega
    simp only [hiff]

/-- The result of `array2f_fill` on a well-formed grid: the call returns, the
grid keeps its shape, and buffer position `k` holds `value` when it is a logical
cell and its earlier content when it lies in the stride padding. -/
theorem array2f_fill_buffer {α : Type} (a : array2f α) (ha : a.wf) (value : α) :
    ∃ a', array2f_fill a value = Except.ok a' ∧ a'.like a ∧
      ∀ k, k < a.buffer.length →
        a'.buffer[k]? = if k % a.stride < a.resolution.width then some value
          else a.buffer[k]? := by
  have hht : a.resolution.height ≤ SIZE_MAX := by
    have := ha.2.2.2.1; unfold SIZE_MAX; omega
  obtain ⟨st, hst, hlen, hc, hcells⟩ := for_range_inv SIZE_MAX 0 a.resolution.height
    (fun _ st => array2f_fill_row a.resolution.width a.stride value st)
    (fun y st => fill_inv a value y 0 st) (a.buffer, 0) (Nat.zero_le _) hht
    ⟨rfl, by simp, fun k _ => by
      have hf : ¬ filled a.resolution.width a.stride 0 0 k := by
        unfold filled
        generalize k % a.stride = t
        generalize k / a.stride = q
        omega
      rw [if_neg hf]⟩
    (fun y t _ hy ht => array2f_fill_row_step a ha value y hy t ht)
  refine ⟨{ a with buffer := st.1 }, ?_, ⟨rfl, rfl, ?_⟩, ?_⟩
  · unfold array2f_fill
    rw [hst]
  · obtain ⟨h1, h2, h3⟩ := ha
    exact ⟨h1, by simp only; rw [hlen]; exact h2, h3⟩
  · intro k hk
    simp only
    rw [hcells k hk]
    have hiff : filled a.resolution.width a.stride a.resolution.height 0 k ↔
        k % a.stride < a.resolution.width := by
      unfold filled
      constructor
      · intro h; exact h.1
      · intro h
        refine ⟨h, Or.inl ?_⟩
        have hk' : k < a.stride * a.resolution.height := by rw [← ha.2.1]; exact hk
        exact Nat.div_lt_of_lt_mul hk'
    simp only [hiff]

theorem array2f_get_fill {α : Type} (a : array2f α) (ha : a.wf) (value : α) :
    ∃ a', array2f_fill a value = Except.ok a' ∧ a'.like a ∧
      ∀ x y, x < a.resolution.width → y < a.resolution.height →
        array2f_get a' x y = Except.ok value := by
  obtain ⟨a', ha', hl, hc⟩ := array2f_fill_buffer a ha value
  refine ⟨a', ha', hl, fun x y hx hy => ?_⟩
  have hk := cell_index_lt ha hx hy
  have hm : (x + y * a.stride) % a.stride = x := by
    rw [Nat.add_mul_mod_self_right, Nat.mod_eq_of_lt (Nat.lt_of_lt_of_le hx ha.1)]
  have hb := hc _ hk
  rw [hm, if_pos hx] at hb
  unfold array2f_get
  rw [hl.1, hl.2.1, if_pos ⟨hx, hy⟩, hb]

/-- C6: on a grid with `stride >= width` whose buffer has `stride * height`
cells, `array2f_fill(a, value)` returns, `buffer[x + y * stride]` is `value` for
every `0 <= x < width`, `0 <= y < height`, and every buffer position in the
stride padding (`width <= index mod stride`) keeps its earlier content. -/
theorem array2f_fill_cells {α : Type} (a : array2f α) (ha : a.wf) (value : α) :
    ∃ a', array2f_fill a value = Except.ok a' ∧
      a'.resolution = a.resolution ∧ a'.stride = a.stride ∧
      a'.buffer.length = a.buffer.length ∧
      (∀ x y, x < a.resolution.width → y < a.resolution.height →
        a'.buffer[x + y * a.stride]? = some value) ∧
      (∀ k, k < a.buffer.length → a.resolution.width ≤ k % a.stride →
        a'.buffer[k]? = a.buffer[k]?) := by
  obtain ⟨a', ha', hl, hc⟩ := array2f_fill_buffer a ha value
  refine ⟨a', ha', hl.1, hl.2.1, ?_, ?_, ?_⟩
  · rw [hl.2.2.2.1, hl.1, hl.2.1, ha.2.1]
  · intro x y hx hy
    have hm : (x + y * a.stride) % a.stride = x := by
      rw [Nat.add_mul_mod_self_right, Nat.mod_eq_of_lt (Nat.lt_of_lt_of_le hx ha.1)]
    rw [hc _ (cell_index_lt ha hx hy), hm, if_pos hx]
  · intro k hk hp
    rw [hc k hk, if_neg (by omega)]

/-- C6 at a 2 by 2 grid of stride 3: the logical cell `(1, 1)` at position 4
becomes 5, the padding at positions 2 and 5 keeps its 9. -/
theorem array2f_fill_cells_witness :
    ∃ a', array2f_fill padded_grid 5 = Except.ok a' ∧
      a'.buffer[1 + 1 * 3]? = some 5 ∧ a'.buffer[2]? = some 9 ∧ a'.buffer[5]? = some 9 := by
  obtain ⟨a', ha', _, _, _, hc, hp⟩ := array2f_fill_cells padded_grid (by decide) 5
  exact ⟨a', ha', hc 1 1 (by decide) (by decide), hp 2 (by decide) (by decide),
    hp 5 (by decide) (by decide)⟩

/-! ## The boundary model of `main` -/

/-- The boundary model that `main` builds, for an image of at least one pixel that
fits in the `(N + 2)` by `(N + 2)` grids: the run returns, and cell `(x, y)`
holds what `box_bounds` writes over the forward differences that
`bounds_from_image` wrote over zero. -/
theorem main_bounds_cells {α : Type} [LinearOrderedRing α] (N : Nat) (im : image)
    (hN : N + 2 ≤ 2 ^ 31) (him : im.wf)
    (hw1 : 1 ≤ im.resolution.width) (hh1 : 1 ≤ im.resolution.height)
    (hwW : im.resolution.width ≤ N + 2) (hhH : im.resolution.height ≤ N + 2) :
    ∃ b' : bounds_t α, main_bounds N im = Except.ok b' ∧
      ∀ x y, x < N + 2 → y < N + 2 →
        array2f_get b'.bx x y = box_bx (N + 2) (N + 2) x y
          (if x + 1 < im.resolution.width ∧ y + 1 < im.resolution.height
           then Except.ok (mask im (x + 1) y - mask im x y) else Except.ok 0) ∧
        array2f_get b'.by_ x y = box_by (N + 2) (N + 2) x y
          (if x + 1 < im.resolution.width ∧ y + 1 < im.resolution.height
           then Except.ok (mask im x (y + 1) - mask im x y) else Except.ok 0) := by
  have hsz : size_add N 2 = N + 2 := by
    unfold size_add
    exact Nat.mod_eq_of_lt (by omega)
  have hsq : (N + 2) * (N + 2) < 2 ^ 64 := by
    have h1 : (N + 2) * (N + 2) ≤ 2 ^ 31 * 2 ^ 31 := Nat.mul_le_mul hN hN
    have h2 : (2 : Nat) ^ 31 * 2 ^ 31 < 2 ^ 64 := by norm_num
    omega
  have h0 : (create_array2f (N + 2) (N + 2) : array2f α).wf :=
    create_array2f_wf (by omega) (by omega) hsq
  obtain ⟨gx, hgx, lgx, cgx⟩ := array2f_get_fill (create_array2f (N + 2) (N + 2)) h0 (0 : α)
  have hrx : gx.resolution = { width := N + 2, height := N + 2 } := lgx.1
  have hb0 : ({ bx := gx, by_ := gx } : bounds_t α).bx.resolution.width = N + 2 := by
    simp only [hrx]
  have hb0' : ({ bx := gx, by_ := gx } : bounds_t α).bx.resolution.height = N + 2 := by
    simp only [hrx]
  obtain ⟨b1, hb1, l1x, l1y, c1⟩ := bounds_from_image_cells
    ({ bx := gx, by_ := gx } : bounds_t α) im him lgx.2.2 lgx.2.2 rfl hw1 hh1
    (by rw [hb0]; exact hwW) (by rw [hb0']; exact hhH) (by omega) (by omega)
  simp only at l1x l1y
  have hr1 : b1.bx.resolution = { width := N + 2, height := N + 2 } := l1x.1.trans hrx
  have hr1y : b1.by_.resolution = b1.bx.resolution := by rw [l1y.1, hr1, hrx]
  obtain ⟨b2, hb2, _, _, c2⟩ := box_bounds_cells b1 l1x.2.2 l1y.2.2 hr1y
    (by rw [hr1]; simp only; omega) (by rw [hr1]; simp only; omega)
  have hdef : (main_bounds N im : Except fault (bounds_t α)) =
      (array2f_fill (create_array2f (size_add N 2) (size_add N 2)) (0 : α)).bind
        (fun bx => (array2f_fill (create_array2f (size_add N 2) (size_add N 2)) (0 : α)).bind
          (fun by_ => (bounds_from_image { bx := bx, by_ := by_ } im).bind box_bounds)) := rfl
  refine ⟨b2, ?_, fun x y hx hy => ?_⟩
  · rw [hdef, hsz, hgx, bind_ok, bind_ok, hb1, bind_ok]
    exact hb2
  · rw [hr1] at c2
    simp only at c2
    obtain ⟨c2x, c2y⟩ := c2 x y hx hy
    obtain ⟨c1x, c1y⟩ := c1 x y (by rw [hb0]; exact hx) (by rw [hb0']; exact hy)
    simp only at c1x c1y
    have hz := cgx x y hx hy
    rw [c2x, c2y, c1x, c1y, hz]
    exact ⟨rfl, rfl⟩

theorem spot_image_wf : spot_image.wf := by
  unfold image.wf spot_image
  simp only [List.length_cons, List.length_replicate]
  norm_num

theorem spot_image_pixel (k : Nat) (hk : k < 9999) :
    spot_image.buffer[k + 1]? = some clear_pixel := by
  show (solid :: List.replicate 9999 clear_pixel)[k + 1]? = some clear_pixel
  rw [List.getElem?_cons_succ, List.getElem?_replicate, if_pos hk]

theorem spot_image_mask :
    (mask spot_image 0 0 : Int) = 1 ∧ (mask spot_image 1 0 : Int) = 0 ∧
    (mask spot_image 0 1 : Int) = 0 := by
  have h0 : alpha_at spot_image 0 0 = 255 := by
    unfold alpha_at image_pixel
    rw [show 0 + 0 * spot_image.stride = 0 from rfl,
      show spot_image.buffer = solid :: List.replicate 9999 clear_pixel from rfl,
      List.getElem?_cons_zero]
    rfl
  have h1 : alpha_at spot_image 1 0 = 0 := by
    unfold alpha_at image_pixel
    rw [show 1 + 0 * spot_image.stride = 0 + 1 from rfl, spot_image_pixel 0 (by norm_num)]
    rfl
  have h2 : alpha_at spot_image 0 1 = 0 := by
    unfold alpha_at image_pixel
    rw [show 0 + 1 * spot_image.stride = 99 + 1 from rfl, spot_image_pixel 99 (by norm_num)]
    rfl
  unfold mask
  rw [h0, h1, h2]
  unfold threshold
  norm_num

/-- C12, counterexample: with `N = 100` as in `main` and a 100 by 100 image
whose pixel `(0, 0)` alone is opaque, the corner `(0, 0)` of the boundary model
holds `(-1, -1)`, not the zero vector. -/
theorem main_bounds_corner_not_zero :
    ∃ b' : bounds_t Int, main_bounds 100 spot_image = Except.ok b' ∧
      array2f_get b'.bx 0 0 = Except.ok (-1) ∧ array2f_get b'.by_ 0 0 = Except.ok (-1) := by
  obtain ⟨b', hb', hc⟩ := main_bounds_cells (α := Int) 100 spot_image (by norm_num)
    spot_image_wf (by decide) (by decide) (by decide) (by decide)
  obtain ⟨cx, cy⟩ := hc 0 0 (by norm_num) (by norm_num)
  obtain ⟨m0, m1, m2⟩ := spot_image_mask
  refine ⟨b', hb', ?_, ?_⟩
  · rw [cx, m0, m1]
    decide
  · rw [cy, m0, m2]
    decide

/-- C12, amended: in the boundary model that `main` builds, for every image of
at least one pixel that fits in the grids, the corners `(N + 1, 0)`,
`(0, N + 1)` and `(N + 1, N + 1)` hold the zero vector, and the corner `(0, 0)`
holds the forward differences of the mask at `(0, 0)` that `bounds_from_image`
stored there when the image has at least two columns and two rows, and the zero
vector otherwise. -/
theorem main_bounds_corners {α : Type} [LinearOrderedRing α] (N : Nat) (im : image)
    (hN : N + 2 ≤ 2 ^ 31) (him : im.wf)
    (hw1 : 1 ≤ im.resolution.width) (hh1 : 1 ≤ im.resolution.height)
    (hwW : im.resolution.width ≤ N + 2) (hhH : im.resolution.height ≤ N + 2) :
    ∃ b' : bounds_t α, main_bounds N im = Except.ok b' ∧
      (array2f_get b'.bx (N + 1) 0 = Except.ok 0 ∧ array2f_get b'.by_ (N + 1) 0 = Except.ok 0) ∧
      (array2f_get b'.bx 0 (N + 1) = Except.ok 0 ∧ array2f_get b'.by_ 0 (N + 1) = Except.ok 0) ∧
      (array2f_get b'.bx (N + 1) (N + 1) = Except.ok 0 ∧
        array2f_get b'.by_ (N + 1) (N + 1) = Except.ok 0) ∧
      array2f_get b'.bx 0 0 =
        (if 2 ≤ im.resolution.width ∧ 2 ≤ im.resolution.height
         then Except.ok (mask im 1 0 - mask im 0 0) else Except.ok 0) ∧
      array2f_get b'.by_ 0 0 =
        (if 2 ≤ im.resolution.width ∧ 2 ≤ im.resolution.height
         then Except.ok (mask im 0 1 - mask im 0 0) else Except.ok 0) := by
  obtain ⟨b', hb', hc⟩ := main_bounds_cells (α := α) N im hN him hw1 hh1 hwW hhH
  obtain ⟨a1, a2⟩ := hc (N + 1) 0 (by omega) (by omega)
  obtain ⟨b1, b2⟩ := hc 0 (N + 1) (by omega) (by omega)
  obtain ⟨c1, c2⟩ := hc (N + 1) (N + 1) (by omega) (by omega)
  obtain ⟨d1, d2⟩ := hc 0 0 (by omega) (by omega)
  refine ⟨b', hb', ⟨?_, ?_⟩, ⟨?_, ?_⟩, ⟨?_, ?_⟩, ?_, ?_⟩
  · rw [a1]; unfold box_bx; split_ifs <;> first | rfl | omega
  · rw [a2]; unfold box_by; split_ifs <;> first | rfl | omega
  · rw [b1]; unfold box_bx; split_ifs <;> first | rfl | omega
  · rw [b2]; unfold box_by; split_ifs <;> first | rfl | omega
  · rw [c1]; unfold box_bx; split_ifs <;> first | rfl | omega
  · rw [c2]; unfold box_by; split_ifs <;> first | rfl | omega
  · rw [d1]; unfold box_bx; split_ifs <;> first | rfl | omega
  · rw [d2]; unfold box_by; split_ifs <;> first | rfl | omega

/-- C12, amended, at `N = 2` and the 3 by 3 image with an opaque centre: all four
corners hold the zero vector. -/
theorem main_bounds_corners_witness :
    ∃ b' : bounds_t Int, main_bounds 2 centre_image = Except.ok b' ∧
      (array2f_get b'.bx 3 0 = Except.ok 0 ∧ array2f_get b'.by_ 3 0 = Except.ok 0) ∧
      (array2f_get b'.bx 0 3 = Except.ok 0 ∧ array2f_get b'.by_ 0 3 = Except.ok 0) ∧
      (array2f_get b'.bx 3 3 = Except.ok 0 ∧ array2f_get b'.by_ 3 3 = Except.ok 0) ∧
      array2f_get b'.bx 0 0 = Except.ok 0 ∧ array2f_get b'.by_ 0 0 = Except.ok 0 :=
  main_bounds_corners (α := Int) 2 centre_image (by decide) (by decide) (by decide)
    (by decide) (by decide) (by decide)

/-! ## `clamp` -/

/-- C19: for `lo <= hi`, `clamp(x, lo, hi)` lies in `[lo, hi]`, is `x` when
`lo <= x <= hi`, and is idempotent. -/
theorem clamp_range (x lo hi : Nat) (h : lo ≤ hi) :
    (lo ≤ clamp x lo hi ∧ clamp x lo hi ≤ hi) ∧
    (lo ≤ x → x ≤ hi → clamp x lo hi = x) ∧
    clamp (clamp x lo hi) lo hi = clamp x lo hi := by
  unfold clamp
  refine ⟨?_, ?_, ?_⟩
  · split_ifs <;> omega
  · intro h1 h2
    split_ifs <;> omega
  · split_ifs <;> omega

/-- C19 at `x = 7`, `lo = 2`, `hi = 5`. -/
theorem clamp_range_witness :
    (2 ≤ clamp 7 2 5 ∧ clamp 7 2 5 ≤ 5) ∧
    (2 ≤ 7 → 7 ≤ 5 → clamp 7 2 5 = 7) ∧
    clamp (clamp 7 2 5) 2 5 = clamp 7 2 5 :=
  clamp_range 7 2 5 (by decide)

/-! ## `image_scale` -/

theorem scale_coordinate_eq {t n m : Nat} (ht : t < m) (hmn : m * n < 2 ^ 64) :
    scale_coordinate t n m = t * n / m := by
  unfold scale_coordinate size_mul
  have h : t * n ≤ m * n := Nat.mul_le_mul_right _ (by omega)
  rw [Nat.mod_eq_of_lt (by omega)]

theorem scale_coordinate_lt {t n m : Nat} (ht : t < m) (hn : 1 ≤ n) (hmn : m * n < 2 ^ 64) :
    scale_coordinate t n m < n := by
  rw [scale_coordinate_eq ht hmn]
  apply Nat.div_lt_of_lt_mul
  exact Nat.mul_lt_mul_of_lt_of_le ht (le_refl n) (by omega)

theorem scale_coordinate_same {t n : Nat} (ht : t < n) (hnn : n * n < 2 ^ 64) :
    scale_coordinate t n n = t := by
  rw [scale_coordinate_eq ht hnn]
  exact Nat.mul_div_cancel _ (by omega)

theorem image_scale_pixel_step (target source : image) (ht : target.wf) (hs : source.wf)
    (hsw : 1 ≤ source.resolution.width) (hsh : 1 ≤ source.resolution.height)
    (hxo : target.resolution.width * source.resolution.width < 2 ^ 64)
    (hyo : target.resolution.height * source.resolution.height < 2 ^ 64)
    (ty tx : Nat) (hty : ty < target.resolution.height) (htx : tx < target.resolution.width)
    (buffer : List color_t) (hb : scale_inv target source ty tx buffer) :
    ∃ buffer', image_scale_pixel target source ty tx buffer = Except.ok buffer' ∧
      scale_inv target source ty (tx + 1) buffer' := by
  obtain ⟨hlen, hcells⟩ := hb
  have hsx := scale_coordinate_lt htx hsw hxo
  have hsy := scale_coordinate_lt hty hsh hyo
  have hsl := pixel_index_lt hs hsx hsy
  have htl := pixel_index_lt ht htx hty
  refine ⟨buffer.set (tx + ty * target.stride)
    source.buffer[scale_coordinate tx source.resolution.width target.resolution.width +
      scale_coordinate ty source.resolution.height target.resolution.height * source.stride],
    ?_, ?_, ?_⟩
  · unfold image_scale_pixel image_width image_height
    simp only [List.getElem?_eq_getElem hsl]
    rw [if_pos (by rw [hlen]; exact htl)]
  · simp [hlen]
  · intro x y hx hy
    by_cases hc : x = tx ∧ y = ty
    · obtain ⟨rfl, rfl⟩ := hc
      rw [List.getElem?_set_self (by rw [hlen]; exact htl), if_pos (by omega),
        List.getElem?_eq_getElem hsl]
    · have hne : tx + ty * target.stride ≠ x + y * target.stride := by
        intro h
        obtain ⟨e1, e2⟩ := cell_index_inj (Nat.lt_of_lt_of_le htx ht.1)
          (Nat.lt_of_lt_of_le hx ht.1) h
        exact hc ⟨e1.symm, e2.symm⟩
      rw [List.getElem?_set_ne hne, hcells x y hx hy]
      split_ifs <;> first | rfl | omega

/-- The result of `image_scale` for a non-empty source: the call returns, the
target keeps its shape, and the pixel `(x, y)` of the target is the pixel of the
source at the scaled coordinates. -/
theorem image_scale_pixels (target source : image) (ht : target.wf) (hs : source.wf)
    (hsw : 1 ≤ source.resolution.width) (hsh : 1 ≤ source.resolution.height)
    (hxo : target.resolution.width * source.resolution.width < 2 ^ 64)
    (hyo : target.resolution.height * source.resolution.height < 2 ^ 64) :
    ∃ t', image_scale target source = Except.ok t' ∧
      t'.resolution = target.resolution ∧ t'.stride = target.stride ∧
      ∀ x y, x < target.resolution.width → y < target.resolution.height →
        image_pixel t' x y = image_pixel source
          (scale_coordinate x source.resolution.width target.resolution.width)
          (scale_coordinate y source.resolution.height target.resolution.height) := by
  have hwt : target.resolution.width ≤ SIZE_MAX := by
    have := ht.2.2.1; unfold SIZE_MAX; omega
  have hht : target.resolution.height ≤ SIZE_MAX := by
    have := ht.2.2.2.1; unfold SIZE_MAX; omega
  obtain ⟨buf, hbuf, _, hc⟩ := for_range2_inv SIZE_MAX 0 target.resolution.height 0
    target.resolution.width (image_scale_pixel target source) (scale_inv target source)
    target.buffer (Nat.zero_le _) hht (Nat.zero_le _) hwt
    ⟨rfl, fun x y _ _ => by rw [if_neg (by omega)]⟩
    (fun ty tx b _ hty _ htx hb =>
      image_scale_pixel_step target source ht hs hsw hsh hxo hyo ty tx hty htx b hb)
    (fun ty b _ _ hb => by
      obtain ⟨hl, hcells⟩ := hb
      refine ⟨hl, fun x y hx hy => ?_⟩
      rw [hcells x y hx hy]
      split_ifs <;> first | rfl | omega)
  refine ⟨{ target with buffer := buf }, ?_, rfl, rfl, fun x y hx hy => ?_⟩
  · unfold image_scale image_height image_width
    rw [hbuf]
  · unfold image_pixel
    simp only
    rw [hc x y hx hy, if_pos (Or.inl hy)]

/-- C18, counterexample: a 1 by 1 target and a source with no pixel. The target
is not empty, the source coordinate computed for the target pixel `(0, 0)` is
`0`, which is not strictly inside the source, and `image_scale` reads outside the
source buffer. -/
theorem image_scale_empty_source :
    one_pixel.wf ∧ no_pixel.wf ∧
    ¬ (scale_coordinate 0 no_pixel.resolution.width one_pixel.resolution.width
        < no_pixel.resolution.width) ∧
    image_scale one_pixel no_pixel = Except.error fault.memory := by
  decide

/-- C18, amended: for a well-formed target and a well-formed source of at least
one pixel, sizes in the range where `tx * sw` and `ty * sh` do not wrap,
`image_scale` returns and every target pixel `(tx, ty)` is the source pixel
`(tx * sw / tw, ty * sh / th)`, whose coordinates are strictly inside the
source; when source and target have the same resolution the result is an exact
copy of the source pixels. -/
theorem image_scale_nearest (target source : image) (ht : target.wf) (hs : source.wf)
    (hsw : 1 ≤ source.resolution.width) (hsh : 1 ≤ source.resolution.height)
    (hxo : target.resolution.width * source.resolution.width < 2 ^ 64)
    (hyo : target.resolution.height * source.resolution.height < 2 ^ 64) :
    ∃ t', image_scale target source = Except.ok t' ∧
      (∀ tx ty, tx < target.resolution.width → ty < target.resolution.height →
        tx * source.resolution.width / target.resolution.width < source.resolution.width ∧
        ty * source.resolution.height / target.resolution.height < source.resolution.height ∧
        image_pixel t' tx ty = image_pixel source
          (tx * source.resolution.width / target.resolution.width)
          (ty * source.resolution.height / target.resolution.height)) ∧
      (source.resolution = target.resolution →
        ∀ tx ty, tx < target.resolution.width → ty < target.resolution.height →
          image_pixel t' tx ty = image_pixel source tx ty) := by
  obtain ⟨t', ht', _, _, hc⟩ := image_scale_pixels target source ht hs hsw hsh hxo hyo
  refine ⟨t', ht', fun tx ty htx hty => ?_, fun hres tx ty htx hty => ?_⟩
  · have hx := scale_coordinate_lt htx hsw hxo
    have hy := scale_coordinate_lt hty hsh hyo
    rw [scale_coordinate_eq htx hxo] at hx
    rw [scale_coordinate_eq hty hyo] at hy
    refine ⟨hx, hy, ?_⟩
    rw [hc tx ty htx hty, scale_coordinate_eq htx hxo, scale_coordinate_eq hty hyo]
  · rw [hc tx ty htx hty, hres]
    rw [hres] at hxo hyo
    rw [scale_coordinate_same htx hxo, scale_coordinate_same hty hyo]

/-- C18, amended, at a 4 by 2 target and a 2 by 1 source: the target pixel
`(3, 1)` is the source pixel `(1, 0)`. -/
theorem image_scale_nearest_witness :
    ∃ t', image_scale blank_image two_pixels = Except.ok t' ∧
      3 * 2 / 4 < 2 ∧ 1 * 1 / 2 < 1 ∧
      image_pixel t' 3 1 = image_pixel two_pixels (3 * 2 / 4) (1 * 1 / 2) := by
  obtain ⟨t', ht', hc, _⟩ := image_scale_nearest blank_image two_pixels (by decide) (by decide)
    (by decide) (by decide) (by decide) (by decide)
  exact ⟨t', ht', hc 3 1 (by decide) (by decide)⟩

/-! ## `load_rgba` -/

/-- C14: when the file cannot be opened, `load_rgba` writes the line
`Could not open ...` to the standard error stream and ends the run with a
non-zero exit status, returning no image; and whenever it returns an image the
file was opened. -/
theorem load_rgba_missing_file (width height : Nat) :
    (∃ e, load_rgba none width height = Except.error e ∧ e.status ≠ 0 ∧
      message.could_not_open ∈ e.stderr) ∧
    (∀ file im, load_rgba file width height = Except.ok im → ∃ pixels, file = some pixels) := by
  constructor
  · exact ⟨{ status := -1, stderr := [message.could_not_open] }, rfl, by decide, by simp⟩
  · intro file im h
    cases file with
    | none => simp [load_rgba] at h
    | some pixels => exact ⟨pixels, rfl⟩

/-! ## `flow` -/

theorem flow_cell_step {α : Type} (ops : float_ops α) (a : array2f α) (ha : a.wf) (y : Nat)
    (hy : y < a.resolution.height) (mean amplitude : α) (randf : Nat → α) (calls x : Nat)
    (hx : x < a.resolution.width) (st : List α × Nat)
    (hst : flow_inv ops a y mean amplitude randf calls x st) :
    ∃ st', flow_cell ops a.stride y mean amplitude randf x st = Except.ok st' ∧
      flow_inv ops a y mean amplitude randf calls (x + 1) st' := by
  obtain ⟨hlen, hc, hcells⟩ := hst
  have hl := cell_index_lt ha hx hy
  have hlt : a.buffer.length < 2 ^ 64 := by rw [ha.2.1]; exact ha.2.2.2.2
  have hcomm : a.stride * y = y * a.stride := Nat.mul_comm _ _
  have hidx : size_add (size_mul a.stride y) x = x + y * a.stride := by
    unfold size_add size_mul
    rw [hcomm, Nat.mod_eq_of_lt (by omega), Nat.mod_eq_of_lt (by omega), Nat.add_comm]
  refine ⟨(st.1.set (x + y * a.stride)
    (ops.add mean (ops.mul amplitude (ops.sub (randf st.2) ops.half))), st.2 + 1),
    ?_, ?_, ?_, ?_⟩
  · unfold flow_cell
    rw [hidx, if_pos (by rw [hlen]; exact hl)]
  · simp [hlen]
  · simp only; omega
  · intro x' y' hx' hy'
    simp only
    by_cases hcase : x' = x ∧ y' = y
    · obtain ⟨rfl, rfl⟩ := hcase
      rw [List.getElem?_set_self (by rw [hlen]; exact hl), if_pos ⟨rfl, by omega⟩, hc]
    · have hne : x + y * a.stride ≠ x' + y' * a.stride := by
        intro h
        obtain ⟨e1, e2⟩ := cell_index_inj (Nat.lt_of_lt_of_le hx ha.1)
          (Nat.lt_of_lt_of_le hx' ha.1) h
        exact hcase ⟨e1.symm, e2.symm⟩
      rw [List.getElem?_set_ne hne, hcells x' y' hx' hy']
      split_ifs <;> first | rfl | omega

/-- The result of `flow` on row `y` of a well-formed grid: the call returns
after one call of `randf` for each column, the grid keeps its shape, every cell
of row `y` holds the value of `mean + amplitude * (r - 0.5f)` in the arithmetic
`ops` for its random value `r`, and the cells of the other rows hold what they
held. -/
theorem flow_cells {α : Type} (ops : float_ops α) (a : array2f α) (ha : a.wf) (y : Nat)
    (hy : y < a.resolution.height) (mean amplitude : α) (randf : Nat → α) (calls : Nat) :
    ∃ a', flow ops a y mean amplitude randf calls = Except.ok (a', calls + a.resolution.width) ∧
      a'.like a ∧
      ∀ x y', x < a.resolution.width → y' < a.resolution.height →
        array2f_get a' x y' =
          if y' = y then
            Except.ok (ops.add mean (ops.mul amplitude (ops.sub (randf (calls + x)) ops.half)))
          else array2f_get a x y' := by
  have hwt : a.resolution.width ≤ SIZE_MAX := by
    have := ha.2.2.1; unfold SIZE_MAX; omega
  obtain ⟨st, hst, hlen, hc, hcells⟩ := for_range_inv SIZE_MAX 0 a.resolution.width
    (flow_cell ops a.stride y mean amplitude randf)
    (flow_inv ops a y mean amplitude randf calls) (a.buffer, calls) (Nat.zero_le _) hwt
    ⟨rfl, rfl, fun x' y' _ _ => by rw [if_neg (by omega)]⟩
    (fun x t _ hx ht => flow_cell_step ops a ha y hy mean amplitude randf calls x hx t ht)
  have hwf : ({ a with buffer := st.1 } : array2f α).wf := by
    obtain ⟨h1, h2, h3⟩ := ha
    exact ⟨h1, by simp only; rw [hlen]; exact h2, h3⟩
  refine ⟨{ a with buffer := st.1 }, ?_, ⟨rfl, rfl, hwf⟩, fun x y' hx hy' => ?_⟩
  · unfold flow
    rw [hst]
    simp only [hc]
  · have hl := cell_index_lt ha hx hy'
    unfold array2f_get
    simp only
    have hin : x < a.resolution.width ∧ y' < a.resolution.height := ⟨hx, hy'⟩
    rw [if_pos hin, hcells x y' hx hy']
    by_cases hyy : y' = y
    · have h1 : y' = y ∧ x < a.resolution.width := ⟨hyy, hx⟩
      rw [if_pos h1, if_pos hyy]
    · have h1 : ¬ (y' = y ∧ x < a.resolution.width) := fun h => hyy h.1
      rw [if_neg h1, if_neg hyy, if_pos hin]

theorem constant_grid_wf {α : Type} (w h : Nat) (v : α) (hw : w < 2 ^ 64) (hh : h < 2 ^ 64)
    (hwh : w * h < 2 ^ 64) : (constant_grid w h v).wf := by
  unfold array2f.wf constant_grid
  refine ⟨le_refl _, ?_, hw, hh, hwh⟩
  simp

theorem array2f_get_constant_grid {α : Type} (w h : Nat) (v : α) (hw : w < 2 ^ 64)
    (hh : h < 2 ^ 64) (hwh : w * h < 2 ^ 64) {x y : Nat} (hx : x < w) (hy : y < h) :
    array2f_get (constant_grid w h v) x y = Except.ok v := by
  have hl := cell_index_lt (constant_grid_wf w h v hw hh hwh) (x := x) (y := y) hx hy
  have hl' : x + y * w < w * h := by
    have e : (constant_grid w h v).buffer.length = w * h := by simp [constant_grid]
    rw [e] at hl
    exact hl
  unfold array2f_get
  have hin : x < (constant_grid w h v).resolution.width ∧
      y < (constant_grid w h v).resolution.height := ⟨hx, hy⟩
  rw [if_pos hin]
  show (match (List.replicate (w * h) v)[x + y * w]? with
    | some v => Except.ok v
    | none => Except.error fault.memory) = Except.ok v
  rw [List.getElem?_replicate, if_pos hl']

/-- C11, counterexample: the call `flow(v, N - 10, -5.0f, 5)` of `main` with
`N = 100`, on a zero grid of 102 by 102 cells, when `randf` returns 0. The ghost
cells at columns 0 and 101 of row 90 held 0 before the call and hold `-15/2`
after it. Every intermediate value of this run (`-1/2`, `-5/2`, `-15/2`) is a
binary32 number, so the exact operations are those of the machine here. -/
theorem flow_writes_ghost_cells :
    ∃ a' n, flow exact_ops (constant_grid 102 102 (0 : ℚ)) 90 (-5) 5 (fun _ => 0) 0
        = Except.ok (a', n) ∧
      array2f_get (constant_grid 102 102 (0 : ℚ)) 0 90 = Except.ok 0 ∧
      array2f_get a' 0 90 = Except.ok (-15 / 2) ∧
      array2f_get (constant_grid 102 102 (0 : ℚ)) 101 90 = Except.ok 0 ∧
      array2f_get a' 101 90 = Except.ok (-15 / 2) := by
  have hwf := constant_grid_wf 102 102 (0 : ℚ) (by norm_num) (by norm_num) (by norm_num)
  obtain ⟨a', ha', _, hc⟩ := flow_cells exact_ops (constant_grid 102 102 (0 : ℚ)) hwf 90
    (by decide) (-5) 5 (fun _ => 0) 0
  have hval : exact_ops.add (-5) (exact_ops.mul 5 (exact_ops.sub 0 exact_ops.half))
      = -15 / 2 := by
    unfold exact_ops
    norm_num
  refine ⟨a', _, ha', ?_, ?_, ?_, ?_⟩
  · exact array2f_get_constant_grid 102 102 0 (by norm_num) (by norm_num) (by norm_num)
      (by norm_num) (by norm_num)
  · have h := hc 0 90 (by decide) (by decide)
    rw [if_pos rfl, hval] at h
    exact h
  · exact array2f_get_constant_grid 102 102 0 (by norm_num) (by norm_num) (by norm_num)
      (by norm_num) (by norm_num)
  · have h := hc 101 90 (by decide) (by decide)
    rw [if_pos rfl, hval] at h
    exact h

/-- C11, amended: on a well-formed grid, `flow(a, y, mean, amplitude)` writes
every column of row `y`, the ghost cells at the first and the last column
included: cell `(x, y)` gets the value that the machine's `float` arithmetic
`ops` gives to `mean + amplitude * (r - 0.5f)` for the random value `r` of call
number `x`, and the cells of every other row are left as they were. This holds
for every arithmetic `ops`, that of binary32 among them. -/
theorem flow_row {α : Type} (ops : float_ops α) (a : array2f α) (ha : a.wf) (y : Nat)
    (hy : y < a.resolution.height) (mean amplitude : α) (randf : Nat → α) (calls : Nat) :
    ∃ a', flow ops a y mean amplitude randf calls = Except.ok (a', calls + a.resolution.width) ∧
      (∀ x, x < a.resolution.width →
        array2f_get a' x y =
          Except.ok (ops.add mean (ops.mul amplitude (ops.sub (randf (calls + x)) ops.half)))) ∧
      (∀ x y', x < a.resolution.width → y' < a.resolution.height → y' ≠ y →
        array2f_get a' x y' = array2f_get a x y') := by
  obtain ⟨a', ha', _, hc⟩ := flow_cells ops a ha y hy mean amplitude randf calls
  refine ⟨a', ha', fun x hx => ?_, fun x y' hx hy' hne => ?_⟩
  · rw [hc x y hx hy, if_pos rfl]
  · rw [hc x y' hx hy', if_neg hne]

/-- C11, amended, at a 3 by 3 grid of sevens and row 1: the ghost cell `(0, 1)`
is written, the cell `(0, 0)` of row 0 is not. -/
theorem flow_row_witness :
    ∃ a', flow exact_ops (constant_grid 3 3 (7 : ℚ)) 1 2 4 (fun _ => 1) 0
        = Except.ok (a', 0 + 3) ∧
      array2f_get a' 0 1 = Except.ok
        (exact_ops.add 2 (exact_ops.mul 4 (exact_ops.sub 1 exact_ops.half))) ∧
      array2f_get a' 0 0 = array2f_get (constant_grid 3 3 (7 : ℚ)) 0 0 := by
  obtain ⟨a', ha', hrow, hrest⟩ := flow_row exact_ops (constant_grid 3 3 (7 : ℚ)) (by decide) 1
    (by decide) 2 4 (fun _ => 1) 0
  exact ⟨a', ha', hrow 0 (by decide), hrest 0 0 (by decide) (by decide) (by decide)⟩

/-! ## `draw_dens` -/

theorem grey_of_unit (wild : ℚ → Nat) {d : ℚ} (h0 : 0 ≤ d) (h1 : d ≤ 1) :
    grey wild d = ⌊255 * d⌋₊ ∧ ⌊255 * d⌋₊ ≤ 255 := by
  have e : (255 : ℚ) * ((d - 0) / (1 - 0)) = 255 * d := by
    rw [sub_zero, sub_zero, div_one]
  have hup : (255 : ℚ) * d ≤ 255 := by
    have : (255 : ℚ) * d ≤ 255 * 1 := by
      apply mul_le_mul_of_nonneg_left h1
      norm_num
    simpa using this
  have hlo : (0 : ℚ) ≤ 255 * d := mul_nonneg (by norm_num) h0
  have hle : ⌊255 * d⌋₊ ≤ 255 := Nat.floor_le_of_le (by simpa using hup)
  have hin : -1 < 255 * d ∧ 255 * d < 2 ^ 32 := by
    constructor
    · linarith
    · have h32 : (255 : ℚ) < 2 ^ 32 := by norm_num
      linarith
  refine ⟨?_, hle⟩
  unfold grey clamp to_uint32
  rw [e, if_pos hin, Int.floor_toNat]
  split_ifs <;> omega

theorem readable_of_wf {α : Type} {a : array2f α} (ha : a.wf) : a.readable :=
  fun _ _ hx hy => cell_index_lt ha hx hy

theorem array2f_get_readable {a : array2f ℚ} (ha : a.readable) {x y : Nat}
    (hx : x < a.resolution.width) (hy : y < a.resolution.height) :
    a.buffer[x + y * a.stride]? = some ((a.buffer[x + y * a.stride]?).getD 0) ∧
    array2f_get a x y = Except.ok ((a.buffer[x + y * a.stride]?).getD 0) := by
  have hl := ha x y hx hy
  have hin : x < a.resolution.width ∧ y < a.resolution.height := ⟨hx, hy⟩
  unfold array2f_get
  rw [if_pos hin, List.getElem?_eq_getElem hl]
  exact ⟨rfl, rfl⟩

theorem draw_dens_pixel_step (wild : ℚ → Nat) (im : image) (dens : array2f ℚ) (him : im.wf)
    (hw : dens.resolution.width ≤ im.resolution.width)
    (hh : dens.resolution.height ≤ im.resolution.height) (d : Nat → Nat → ℚ)
    (hd : ∀ x y, x < dens.resolution.width → y < dens.resolution.height →
      dens.buffer[x + y * dens.stride]? = some (d x y))
    (y x : Nat) (hy : y < dens.resolution.height) (hx : x < dens.resolution.width)
    (buffer : List color_t) (hb : draw_inv wild im dens d y x buffer) :
    ∃ buffer', draw_dens_pixel wild im.stride dens y x buffer = Except.ok buffer' ∧
      draw_inv wild im dens d y (x + 1) buffer' := by
  obtain ⟨hlen, hcells⟩ := hb
  have hdv := hd x y hx hy
  have hl := pixel_index_lt him (x := x) (y := y) (by omega) (by omega)
  refine ⟨buffer.set (x + y * im.stride)
    (rgb (grey wild (d x y)) (grey wild (d x y)) (grey wild (d x y))), ?_, ?_, ?_⟩
  · unfold draw_dens_pixel
    simp only [hdv]
    rw [if_pos (by rw [hlen]; exact hl)]
    rfl
  · simp [hlen]
  · intro x' y' hx' hy'
    by_cases hc : x' = x ∧ y' = y
    · obtain ⟨rfl, rfl⟩ := hc
      rw [List.getElem?_set_self (by rw [hlen]; exact hl), if_pos (by omega)]
    · have hne : x + y * im.stride ≠ x' + y' * im.stride := by
        intro h
        obtain ⟨e1, e2⟩ := cell_index_inj (s := im.stride) (by have := him.1; omega)
          (Nat.lt_of_lt_of_le hx' him.1) h
        exact hc ⟨e1.symm, e2.symm⟩
      rw [List.getElem?_set_ne hne, hcells x' y' hx' hy']
      split_ifs <;> first | rfl | omega

/-- The result of `draw_dens` for a readable density grid no larger than the
image: the call returns, the image keeps its shape, and pixel `(x, y)` is the
grey of the density at `(x, y)` inside the rectangle of the density grid and the
earlier pixel outside it. -/
theorem draw_dens_pixels (wild : ℚ → Nat) (im : image) (dens : array2f ℚ) (him : im.wf)
    (hw : dens.resolution.width ≤ im.resolution.width)
    (hh : dens.resolution.height ≤ im.resolution.height) (d : Nat → Nat → ℚ)
    (hd : ∀ x y, x < dens.resolution.width → y < dens.resolution.height →
      dens.buffer[x + y * dens.stride]? = some (d x y)) :
    ∃ im', draw_dens wild im dens = Except.ok im' ∧
      im'.resolution = im.resolution ∧ im'.stride = im.stride ∧
      ∀ x y, x < im.resolution.width → y < im.resolution.height →
        image_pixel im' x y =
          if x < dens.resolution.width ∧ y < dens.resolution.height
          then Except.ok (rgb (grey wild (d x y)) (grey wild (d x y)) (grey wild (d x y)))
          else image_pixel im x y := by
  have hwt : dens.resolution.width ≤ SIZE_MAX := by
    have := him.2.2.1; unfold SIZE_MAX; omega
  have hht : dens.resolution.height ≤ SIZE_MAX := by
    have := him.2.2.2.1; unfold SIZE_MAX; omega
  obtain ⟨buf, hbuf, _, hc⟩ := for_range2_inv SIZE_MAX 0 dens.resolution.height 0
    dens.resolution.width (draw_dens_pixel wild im.stride dens) (draw_inv wild im dens d)
    im.buffer (Nat.zero_le _) hht (Nat.zero_le _) hwt
    ⟨rfl, fun x y _ _ => by rw [if_neg (by omega)]⟩
    (fun y x b _ hy _ hx hb =>
      draw_dens_pixel_step wild im dens him hw hh d hd y x hy hx b hb)
    (fun y b _ _ hb => by
      obtain ⟨hl, hcells⟩ := hb
      refine ⟨hl, fun x' y' hx' hy' => ?_⟩
      rw [hcells x' y' hx' hy']
      split_ifs <;> first | rfl | omega)
  refine ⟨{ im with buffer := buf }, ?_, rfl, rfl, fun x y hx hy => ?_⟩
  · unfold draw_dens image_width image_height
    rw [if_pos ⟨hw, hh⟩, hbuf]
  · unfold image_pixel
    simp only
    rw [hc x y hx hy]
    split_ifs <;> first | rfl | omega

/-- C13: for every density grid no larger than the image, a grid of its own or
a view of a larger one, whatever values its cells hold, `draw_dens` returns; at
every cell `(x, y)` whose density `d` is in `[0, 1]` the pixel written at
`(x, y)` is `rgb(k, k, k)` with `k = floor(255 * d)` and `k <= 255`; the pixels
of the image outside the rectangle of the density grid are unchanged; and
`floor(255 * d)` is 0 at `d = 0`, 255 at `d = 1` and monotone in `d`. Densities
are rational numbers and the arithmetic is exact. -/
theorem draw_dens_grey (wild : ℚ → Nat) (im : image) (dens : array2f ℚ) (him : im.wf)
    (hdr : dens.readable)
    (hw : dens.resolution.width ≤ im.resolution.width)
    (hh : dens.resolution.height ≤ im.resolution.height) :
    ∃ im', draw_dens wild im dens = Except.ok im' ∧
      (∀ x y d, x < dens.resolution.width → y < dens.resolution.height →
        array2f_get dens x y = Except.ok d → 0 ≤ d → d ≤ 1 →
        image_pixel im' x y = Except.ok (rgb ⌊255 * d⌋₊ ⌊255 * d⌋₊ ⌊255 * d⌋₊) ∧
        ⌊255 * d⌋₊ ≤ 255) ∧
      (∀ x y, x < im.resolution.width → y < im.resolution.height →
        ¬ (x < dens.resolution.width ∧ y < dens.resolution.height) →
        image_pixel im' x y = image_pixel im x y) ∧
      ⌊255 * (0 : ℚ)⌋₊ = 0 ∧ ⌊255 * (1 : ℚ)⌋₊ = 255 ∧
      ∀ d d' : ℚ, d ≤ d' → ⌊255 * d⌋₊ ≤ ⌊255 * d'⌋₊ := by
  obtain ⟨im', him', _, _, hc⟩ := draw_dens_pixels wild im dens him hw hh
    (fun x y => (dens.buffer[x + y * dens.stride]?).getD 0)
    (fun x y hx hy => (array2f_get_readable hdr hx hy).1)
  refine ⟨im', him', ?_, ?_, ?_, ?_, ?_⟩
  · intro x y d hx hy hd h0 h1
    have hd' := (array2f_get_readable hdr hx hy).2
    rw [hd] at hd'
    have hdd : (dens.buffer[x + y * dens.stride]?).getD 0 = d := by
      injection hd' with h
      exact h.symm
    obtain ⟨hg, hle⟩ := grey_of_unit wild h0 h1
    refine ⟨?_, hle⟩
    have hin : x < dens.resolution.width ∧ y < dens.resolution.height := ⟨hx, hy⟩
    rw [hc x y (by omega) (by omega), if_pos hin]
    simp only [hdd, hg]
  · intro x y hx hy hout
    rw [hc x y hx hy, if_neg hout]
  · simp
  · simp
  · intro d d' hdd
    apply Nat.floor_mono
    apply mul_le_mul_of_nonneg_left hdd
    norm_num

/-- C13 at a 4 by 2 image and the view `array2f_pad(ringed_grid, 1, 1)`, 2 by 1
with stride 4, whose cells hold `-1` and `1`: the cell `(0, 0)` is outside
`[0, 1]` and its conversion is left to the machine, the pixel `(1, 0)` becomes
`rgb(255, 255, 255)` for the density `1`, and the pixel `(3, 1)` outside the
view is unchanged. -/
theorem draw_dens_grey_witness :
    ∃ im', draw_dens (fun _ => 4294967041) blank_image (array2f_pad ringed_grid 1 1)
        = Except.ok im' ∧
      (image_pixel im' 1 0 =
          Except.ok (rgb ⌊255 * (1 : ℚ)⌋₊ ⌊255 * (1 : ℚ)⌋₊ ⌊255 * (1 : ℚ)⌋₊) ∧
        ⌊255 * (1 : ℚ)⌋₊ ≤ 255) ∧
      image_pixel im' 3 1 = image_pixel blank_image 3 1 := by
  have hview : (array2f_pad ringed_grid 1 1).readable := by
    intro x y hx hy
    have hx' : x < 2 := hx
    have hy' : y < 1 := hy
    interval_cases x <;> interval_cases y <;> decide
  obtain ⟨im', him', hin, hout, _⟩ := draw_dens_grey (fun _ => 4294967041) blank_image
    (array2f_pad ringed_grid 1 1) (by decide) hview (by decide) (by decide)
  refine ⟨im', him', hin 1 0 1 (by decide) (by decide) ?_ (by norm_num) (by norm_num),
    hout 3 1 (by decide) (by decide) (by decide)⟩
  simp [array2f_get, array2f_pad, ringed_grid, size_sub, size_mul]

/-! ## `convolution` -/

theorem array2f_get_cell_at {α : Type} [Zero α] {a : array2f α} (ha : a.wf) {x y : Nat}
    (hx : x < a.resolution.width) (hy : y < a.resolution.height) :
    array2f_get a x y = Except.ok (cell_at a x y) := by
  have hl := cell_index_lt ha hx hy
  have hin : x < a.resolution.width ∧ y < a.resolution.height := ⟨hx, hy⟩
  have hg : array2f_get a x y = Except.ok a.buffer[x + y * a.stride] := by
    unfold array2f_get
    rw [if_pos hin, List.getElem?_eq_getElem hl]
  unfold cell_at
  rw [hg]

theorem kernel_index {n k half t c : Nat} (hn : n < 2 ^ 64) (hk : k < 2 ^ 64)
    (hodd : k % 2 = 1) (hhalf : half = k / 2) (h1 : half ≤ t) (h2 : t < n - half)
    (hc : c < k) :
    size_sub (size_add t c) half = t + c - half ∧ t + c - half < n := by
  unfold size_sub size_add
  omega

theorem convolution_term_ok {α : Type} [Semiring α] (source kernel : array2f α)
    (hs : source.wf) (hk : kernel.wf)
    (hkw : kernel.resolution.width % 2 = 1) (hkh : kernel.resolution.height % 2 = 1)
    (x y : Nat)
    (hv : visited source.resolution.width source.resolution.height kernel.resolution.width
      kernel.resolution.height x y)
    (kx ky : Nat) (hkx : kx < kernel.resolution.width) (hky : ky < kernel.resolution.height)
    (tmp : α) :
    convolution_term source kernel (kernel.resolution.width / 2)
        (kernel.resolution.height / 2) x y kx ky tmp =
      Except.ok (tmp + cell_at kernel kx ky *
        cell_at source (x + kx - kernel.resolution.width / 2)
          (y + ky - kernel.resolution.height / 2)) := by
  obtain ⟨v1, v2, v3, v4⟩ := hv
  obtain ⟨ex, hxl⟩ := kernel_index hs.2.2.1 hk.2.2.1 hkw rfl v1 v2 hkx
  obtain ⟨ey, hyl⟩ := kernel_index hs.2.2.2.1 hk.2.2.2.1 hkh rfl v3 v4 hky
  unfold convolution_term
  rw [ex, ey, array2f_get_cell_at hk hkx hky, array2f_get_cell_at hs hxl hyl]
  rfl

theorem convolution_cell_ok {α : Type} [Semiring α] (source kernel : array2f α)
    (hs : source.wf) (hk : kernel.wf)
    (hkw : kernel.resolution.width % 2 = 1) (hkh : kernel.resolution.height % 2 = 1)
    (x y : Nat)
    (hv : visited source.resolution.width source.resolution.height kernel.resolution.width
      kernel.resolution.height x y)
    (t : array2f α) (ht : t.wf) (hx : x < t.resolution.width) (hy : y < t.resolution.height) :
    convolution_cell source kernel (kernel.resolution.width / 2)
        (kernel.resolution.height / 2) x y t =
      Except.ok (t.put x y (convolution_sum source kernel x y)) := by
  have hwt : kernel.resolution.width ≤ SIZE_MAX := by
    have := hk.2.2.1; unfold SIZE_MAX; omega
  have hht : kernel.resolution.height ≤ SIZE_MAX := by
    have := hk.2.2.2.1; unfold SIZE_MAX; omega
  obtain ⟨tmp, htmp, hsum⟩ := for_range2_inv SIZE_MAX 0 kernel.resolution.width 0
    kernel.resolution.height
    (convolution_term source kernel (kernel.resolution.width / 2)
      (kernel.resolution.height / 2) x y)
    (fun kx ky (tmp : α) => tmp =
      (∑ i in Finset.range kx, ∑ j in Finset.range kernel.resolution.height,
        cell_at kernel i j * cell_at source (x + i - kernel.resolution.width / 2)
          (y + j - kernel.resolution.height / 2)) +
      ∑ j in Finset.range ky,
        cell_at kernel kx j * cell_at source (x + kx - kernel.resolution.width / 2)
          (y + j - kernel.resolution.height / 2))
    (0 : α) (Nat.zero_le _) hwt (Nat.zero_le _) hht (by simp)
    (fun kx ky tmp _ hkx _ hky htmp => by
      refine ⟨_, convolution_term_ok source kernel hs hk hkw hkh x y hv kx ky hkx hky tmp, ?_⟩
      beta_reduce at htmp ⊢
      rw [htmp, Finset.sum_range_succ, add_assoc])
    (fun kx tmp _ _ htmp => by
      beta_reduce at htmp ⊢
      rw [htmp, Finset.sum_range_succ, Finset.sum_range_zero, add_zero])
  unfold convolution_cell
  rw [htmp]
  simp only
  rw [array2f_set_ok ht hx hy, hsum, Finset.sum_range_zero, add_zero]
  rfl

/-- The result of `convolution` when its assertions hold and the source is at
least as large as half the kernel in each dimension: the call returns, the
target keeps its shape, every visited cell holds the sum over the kernel, and
every other cell holds what it held. -/
theorem convolution_cells {α : Type} [Semiring α] (source kernel target : array2f α)
    (hs : source.wf) (hk : kernel.wf) (ht : target.wf)
    (hpre : convolution_precondition source kernel target)
    (hW : kernel.resolution.width / 2 ≤ source.resolution.width)
    (hH : kernel.resolution.height / 2 ≤ source.resolution.height) :
    ∃ t', convolution source kernel target = Except.ok t' ∧ t'.like target ∧
      ∀ x y, x < target.resolution.width → y < target.resolution.height →
        array2f_get t' x y =
          if visited source.resolution.width source.resolution.height kernel.resolution.width
              kernel.resolution.height x y
          then Except.ok (convolution_sum source kernel x y) else array2f_get target x y := by
  obtain ⟨pw, ph, hkw, hkh⟩ := hpre
  have hsw := hs.2.2.1
  have hsh := hs.2.2.2.1
  have ew : size_sub source.resolution.width (kernel.resolution.width / 2) =
      source.resolution.width - kernel.resolution.width / 2 := size_sub_of_le hsw hW
  have eh : size_sub source.resolution.height (kernel.resolution.height / 2) =
      source.resolution.height - kernel.resolution.height / 2 := size_sub_of_le hsh hH
  have hdef : convolution source kernel target =
      for_range SIZE_MAX (kernel.resolution.width / 2)
        (source.resolution.width - kernel.resolution.width / 2) (fun x t =>
          for_range SIZE_MAX (kernel.resolution.height / 2)
            (source.resolution.height - kernel.resolution.height / 2)
            (convolution_cell source kernel (kernel.resolution.width / 2)
              (kernel.resolution.height / 2) x) t) target := by
    unfold convolution
    rw [if_pos ⟨pw, ph, hkw, hkh⟩, ew, eh]
  have hSM : SIZE_MAX = 2 ^ 64 - 1 := rfl
  rw [hdef]
  by_cases hcx : kernel.resolution.width / 2 ≤
      source.resolution.width - kernel.resolution.width / 2
  · by_cases hcy : kernel.resolution.height / 2 ≤
        source.resolution.height - kernel.resolution.height / 2
    · obtain ⟨t', ht', hl, hc⟩ := for_range2_inv SIZE_MAX (kernel.resolution.width / 2)
        (source.resolution.width - kernel.resolution.width / 2)
        (kernel.resolution.height / 2)
        (source.resolution.height - kernel.resolution.height / 2)
        (convolution_cell source kernel (kernel.resolution.width / 2)
          (kernel.resolution.height / 2))
        (convolution_inv source kernel target) target hcx (by omega) hcy (by omega)
        ⟨like_refl ht, fun x y _ _ => by
          unfold visited
          rw [if_neg (by omega)]⟩
        (fun x y s hx1 hx2 hy1 hy2 hs' => by
          obtain ⟨ls, cs⟩ := hs'
          have hv : visited source.resolution.width source.resolution.height
              kernel.resolution.width kernel.resolution.height x y := ⟨hx1, hx2, hy1, hy2⟩
          have hxt : x < target.resolution.width := by omega
          have hyt : y < target.resolution.height := by omega
          refine ⟨_, convolution_cell_ok source kernel hs hk hkw hkh x y hv s ls.2.2
            (by rw [ls.1]; exact hxt) (by rw [ls.1]; exact hyt), like_put ls _ _ _, ?_⟩
          intro x' y' hx' hy'
          rw [get_put_like ls hxt hyt _ hx' hy', cs x' y' hx' hy']
          unfold visited
          split_ifs <;> first | rfl | omega | simp_all)
        (fun x s _ _ hs' => by
          obtain ⟨ls, cs⟩ := hs'
          refine ⟨ls, fun x' y' hx' hy' => ?_⟩
          rw [cs x' y' hx' hy']
          unfold visited
          split_ifs <;> first | rfl | omega)
      refine ⟨t', ht', hl, fun x y hx hy => ?_⟩
      rw [hc x y hx hy]
      unfold visited
      split_ifs <;> first | rfl | omega
    · obtain ⟨t', ht', he⟩ := for_range_inv SIZE_MAX (kernel.resolution.width / 2)
        (source.resolution.width - kernel.resolution.width / 2) (fun x t =>
          for_range SIZE_MAX (kernel.resolution.height / 2)
            (source.resolution.height - kernel.resolution.height / 2)
            (convolution_cell source kernel (kernel.resolution.width / 2)
              (kernel.resolution.height / 2) x) t)
        (fun _ s => s = target) target hcx (by omega) rfl
        (fun x s _ _ hs' => ⟨s, for_range_empty _ _ _ _ _ (by omega) (by omega), hs'⟩)
      subst he
      refine ⟨t', ht', like_refl ht, fun x y _ _ => ?_⟩
      unfold visited
      rw [if_neg (by omega)]
  · refine ⟨target, for_range_empty _ _ _ _ _ (by omega) (by omega), like_refl ht,
      fun x y _ _ => ?_⟩
    unfold visited
    rw [if_neg (by omega)]

theorem for_loop_ne_assertion {σ : Type} (top : Nat) (body : Nat → σ → Except fault σ)
    (hbody : ∀ c s, body c s ≠ Except.error fault.assertion) (n : Nat) :
    ∀ (c : Nat) (s : σ), for_loop top body n c s ≠ Except.error fault.assertion := by
  induction n with
  | zero =>
    intro c s
    unfold for_loop
    split_ifs <;> simp
  | succ n ih =>
    intro c s
    unfold for_loop
    by_cases hc : c ≤ top
    · rw [if_pos hc]
      cases hb : body c s with
      | ok s' => exact ih (c + 1) s'
      | error e =>
        intro h
        apply hbody c s
        rw [hb]
        exact h
    · rw [if_neg hc]
      simp

theorem for_range_ne_assertion {σ : Type} (top lo hi : Nat) (body : Nat → σ → Except fault σ)
    (hbody : ∀ c s, body c s ≠ Except.error fault.assertion) (s : σ) :
    for_range top lo hi body s ≠ Except.error fault.assertion :=
  for_loop_ne_assertion top body hbody (hi - lo) lo s

theorem array2f_get_ne_assertion {α : Type} (a : array2f α) (x y : Nat) :
    array2f_get a x y ≠ Except.error fault.assertion := by
  unfold array2f_get
  split_ifs
  · cases a.buffer[x + y * a.stride]? <;> simp
  · simp

theorem array2f_set_ne_assertion {α : Type} (a : array2f α) (x y : Nat) (v : α) :
    array2f_set a x y v ≠ Except.error fault.assertion := by
  unfold array2f_set
  split_ifs <;> simp

theorem convolution_term_ne_assertion {α : Type} [Semiring α] (source kernel : array2f α)
    (half_x half_y x y kx ky : Nat) (tmp : α) :
    convolution_term source kernel half_x half_y x y kx ky tmp ≠
      Except.error fault.assertion := by
  unfold convolution_term
  have h1 := array2f_get_ne_assertion kernel kx ky
  have h2 := array2f_get_ne_assertion source (size_sub (size_add x kx) half_x)
    (size_sub (size_add y ky) half_y)
  cases hk : array2f_get kernel kx ky with
  | error e =>
    rw [hk] at h1
    simpa [bind, Except.bind] using h1
  | ok k =>
    cases hs : array2f_get source (size_sub (size_add x kx) half_x)
        (size_sub (size_add y ky) half_y) with
    | error e =>
      rw [hs] at h2
      simpa [bind, Except.bind] using h2
    | ok s => simp [bind, Except.bind, pure, Except.pure]

theorem convolution_cell_ne_assertion {α : Type} [Semiring α] (source kernel : array2f α)
    (half_x half_y x y : Nat) (t : array2f α) :
    convolution_cell source kernel half_x half_y x y t ≠ Except.error fault.assertion := by
  unfold convolution_cell
  have h := for_range_ne_assertion SIZE_MAX 0 kernel.resolution.width (fun kx tmp =>
      for_range SIZE_MAX 0 kernel.resolution.height
        (convolution_term source kernel half_x half_y x y kx) tmp)
    (fun kx tmp => for_range_ne_assertion _ _ _ _
      (fun ky u => convolution_term_ne_assertion source kernel half_x half_y x y kx ky u) tmp)
    (0 : α)
  revert h
  cases for_range SIZE_MAX 0 kernel.resolution.width (fun kx tmp =>
      for_range SIZE_MAX 0 kernel.resolution.height
        (convolution_term source kernel half_x half_y x y kx) tmp) (0 : α) with
  | error e => intro h; simpa using h
  | ok tmp => intro _; exact array2f_set_ne_assertion t x y tmp

theorem convolution_assertion_iff {α : Type} [Semiring α] (source kernel target : array2f α) :
    convolution source kernel target = Except.error fault.assertion ↔
      ¬ convolution_precondition source kernel target := by
  constructor
  · intro h hpre
    unfold convolution at h
    rw [if_pos hpre] at h
    exact for_range_ne_assertion _ _ _ _
      (fun x t => for_range_ne_assertion _ _ _ _
        (fun y u => convolution_cell_ne_assertion source kernel _ _ x y u) t) target h
  · intro hpre
    unfold convolution
    rw [if_neg hpre]

theorem for_loop_outcome {σ : Type} (top : Nat) (body : Nat → σ → Except fault σ)
    (memory : Nat → σ → σ × Option fault)
    (h : ∀ c s, body c s = outcome (memory c s)) (n : Nat) :
    ∀ (c : Nat) (s : σ),
      for_loop top body n c s = outcome (for_loop_memory top memory n c s) := by
  induction n with
  | zero =>
    intro c s
    unfold for_loop for_loop_memory
    split_ifs <;> rfl
  | succ n ih =>
    intro c s
    unfold for_loop for_loop_memory
    by_cases hc : c ≤ top
    · rw [if_pos hc, if_pos hc, h c s]
      rcases hm : memory c s with ⟨s', _ | e⟩
      · exact ih (c + 1) s'
      · rfl
    · rw [if_neg hc, if_neg hc]
      rfl

theorem for_range_outcome {σ : Type} (top lo hi : Nat) (body : Nat → σ → Except fault σ)
    (memory : Nat → σ → σ × Option fault)
    (h : ∀ c s, body c s = outcome (memory c s)) (s : σ) :
    for_range top lo hi body s = outcome (for_range_memory top lo hi memory s) :=
  for_loop_outcome top body memory h (hi - lo) lo s

theorem convolution_cell_outcome {α : Type} [Semiring α] (source kernel : array2f α)
    (half_x half_y x y : Nat) (t : array2f α) :
    convolution_cell source kernel half_x half_y x y t =
      outcome (convolution_cell_memory source kernel half_x half_y x y t) := by
  unfold convolution_cell_memory
  cases convolution_cell source kernel half_x half_y x y t <;> rfl

theorem convolution_outcome {α : Type} [Semiring α] (source kernel target : array2f α) :
    convolution source kernel target = outcome (convolution_memory source kernel target) := by
  unfold convolution convolution_memory
  by_cases hpre : convolution_precondition source kernel target
  · rw [if_pos hpre, if_pos hpre]
    exact for_range_outcome _ _ _ _ _
      (fun x t => for_range_outcome _ _ _ _ _
        (fun y u => convolution_cell_outcome source kernel _ _ x y u) t) target
  · rw [if_neg hpre, if_neg hpre]
    rfl

/-- C9: `convolution` rejects a malformed configuration before writing any
target cell. One of its four assertions fails if and only if the kernel's width
or height is even or the resolutions of source and target differ; when one
fails, the memory of the target is as it was before the call; and for an odd by
odd kernel and equal resolutions none of the four assertions fails. The memory
that `convolution_memory` reports is that of `convolution`: the result of the
call is the outcome of it. -/
theorem convolution_rejects {α : Type} [Semiring α] (source kernel target : array2f α) :
    (convolution source kernel target = Except.error fault.assertion ↔
      (kernel.resolution.width % 2 ≠ 1 ∨ kernel.resolution.height % 2 ≠ 1 ∨
        source.resolution.width ≠ target.resolution.width ∨
        source.resolution.height ≠ target.resolution.height)) ∧
    ((kernel.resolution.width % 2 ≠ 1 ∨ kernel.resolution.height % 2 ≠ 1 ∨
        source.resolution.width ≠ target.resolution.width ∨
        source.resolution.height ≠ target.resolution.height) →
      convolution_memory source kernel target = (target, some fault.assertion)) ∧
    (kernel.resolution.width % 2 = 1 → kernel.resolution.height % 2 = 1 →
      source.resolution.width = target.resolution.width →
      source.resolution.height = target.resolution.height →
      convolution source kernel target ≠ Except.error fault.assertion) ∧
    convolution source kernel target = outcome (convolution_memory source kernel target) := by
  have hiff : (kernel.resolution.width % 2 ≠ 1 ∨ kernel.resolution.height % 2 ≠ 1 ∨
        source.resolution.width ≠ target.resolution.width ∨
        source.resolution.height ≠ target.resolution.height) ↔
      ¬ convolution_precondition source kernel target := by
    unfold convolution_precondition
    constructor
    · rintro h ⟨p1, p2, p3, p4⟩
      rcases h with h | h | h | h
      · exact h p3
      · exact h p4
      · exact h p1
      · exact h p2
    · intro h
      by_contra hc
      push_neg at hc
      exact h ⟨hc.2.2.1, hc.2.2.2, hc.1, hc.2.1⟩
  refine ⟨?_, ?_, ?_, convolution_outcome source kernel target⟩
  · rw [convolution_assertion_iff, hiff]
  · intro h
    unfold convolution_memory
    rw [if_neg (hiff.mp h)]
  · intro h1 h2 h3 h4 hfail
    exact (convolution_assertion_iff source kernel target).mp hfail ⟨h3, h4, h1, h2⟩

/-- C9 at a kernel with 2 columns: the call is rejected by an assertion of
`convolution` and the target of sevens is left as it was. -/
theorem convolution_rejects_witness :
    convolution (constant_grid 2 2 (7 : Int)) even_kernel (constant_grid 2 2 7)
      = Except.error fault.assertion ∧
    convolution_memory (constant_grid 2 2 (7 : Int)) even_kernel (constant_grid 2 2 7)
      = (constant_grid 2 2 7, some fault.assertion) :=
  ⟨(convolution_rejects (constant_grid 2 2 (7 : Int)) even_kernel
      (constant_grid 2 2 7)).1.mpr (Or.inl (by decide)),
    (convolution_rejects (constant_grid 2 2 (7 : Int)) even_kernel
      (constant_grid 2 2 7)).2.1 (Or.inl (by decide))⟩

/-- C16: when the assertions of `convolution` hold and the source is at least as
large as half the kernel in each dimension (sizes such that `x + kx` and
`y + ky` stay below `2 ^ 64`), the loop bounds `width - half_x` and
`height - half_y` do not wrap, and for every visited `(x, y)` and kernel offset
`(kx, ky)` the index read from the source is computed without wrapping and is in
bounds: `half_x <= x + kx`, `x + kx - half_x < width`, and the same for `y`;
the whole call returns without a fault. -/
theorem convolution_reads_in_bounds {α : Type} [Semiring α]
    (source kernel target : array2f α) (hs : source.wf) (hk : kernel.wf) (ht : target.wf)
    (hpre : convolution_precondition source kernel target)
    (hW : kernel.resolution.width / 2 ≤ source.resolution.width)
    (hH : kernel.resolution.height / 2 ≤ source.resolution.height)
    (hxr : source.resolution.width + kernel.resolution.width ≤ 2 ^ 64)
    (hyr : source.resolution.height + kernel.resolution.height ≤ 2 ^ 64) :
    (size_sub source.resolution.width (kernel.resolution.width / 2) =
        source.resolution.width - kernel.resolution.width / 2 ∧
      size_sub source.resolution.height (kernel.resolution.height / 2) =
        source.resolution.height - kernel.resolution.height / 2) ∧
    (∀ x y kx ky,
      visited source.resolution.width source.resolution.height kernel.resolution.width
        kernel.resolution.height x y →
      kx < kernel.resolution.width → ky < kernel.resolution.height →
      (x + kx < 2 ^ 64 ∧ kernel.resolution.width / 2 ≤ x + kx ∧
        size_sub (size_add x kx) (kernel.resolution.width / 2) =
          x + kx - kernel.resolution.width / 2 ∧
        x + kx - kernel.resolution.width / 2 < source.resolution.width) ∧
      (y + ky < 2 ^ 64 ∧ kernel.resolution.height / 2 ≤ y + ky ∧
        size_sub (size_add y ky) (kernel.resolution.height / 2) =
          y + ky - kernel.resolution.height / 2 ∧
        y + ky - kernel.resolution.height / 2 < source.resolution.height)) ∧
    ∃ t', convolution source kernel target = Except.ok t' := by
  refine ⟨⟨size_sub_of_le hs.2.2.1 hW, size_sub_of_le hs.2.2.2.1 hH⟩, ?_, ?_⟩
  · intro x y kx ky hv hkx hky
    obtain ⟨v1, v2, v3, v4⟩ := hv
    obtain ⟨_, _, hkw, hkh⟩ := hpre
    obtain ⟨ex, hxl⟩ := kernel_index hs.2.2.1 hk.2.2.1 hkw rfl v1 v2 hkx
    obtain ⟨ey, hyl⟩ := kernel_index hs.2.2.2.1 hk.2.2.2.1 hkh rfl v3 v4 hky
    exact ⟨⟨by omega, by omega, ex, hxl⟩, ⟨by omega, by omega, ey, hyl⟩⟩
  · obtain ⟨t', ht', _⟩ := convolution_cells source kernel target hs hk ht hpre hW hH
    exact ⟨t', ht'⟩

/-- C16 at a 3 by 3 source and a 3 by 3 kernel: the only visited cell is
`(1, 1)`, and the kernel offset `(2, 0)` reads the source at `(2, 0)`. -/
theorem convolution_reads_in_bounds_witness :
    (1 + 2 < 2 ^ 64 ∧ 3 / 2 ≤ 1 + 2 ∧ size_sub (size_add 1 2) (3 / 2) = 1 + 2 - 3 / 2 ∧
      1 + 2 - 3 / 2 < 3) ∧
    (1 + 0 < 2 ^ 64 ∧ 3 / 2 ≤ 1 + 0 ∧ size_sub (size_add 1 0) (3 / 2) = 1 + 0 - 3 / 2 ∧
      1 + 0 - 3 / 2 < 3) :=
  (convolution_reads_in_bounds ramp_grid corner_kernel (constant_grid 3 3 7) (by decide)
    (by decide) (by decide) (by decide) (by decide) (by decide) (by decide) (by decide)).2.1
    1 1 2 0 (by decide) (by decide) (by decide)

/-- C17, counterexample: a 1 by 1 source and target and a 5 by 5 kernel. The
kernel is odd and the resolutions are equal, and no `(x, y)` has
`2 <= x < 1 - 2`, yet the target is not returned unchanged: `1 - 2` wraps, the
loops run and the read of the source at `(0, 1)` fails. -/
theorem convolution_narrow_source_fails :
    convolution_precondition (constant_grid 1 1 (7 : Int)) wide_kernel (constant_grid 1 1 7) ∧
    convolution (constant_grid 1 1 (7 : Int)) wide_kernel (constant_grid 1 1 7)
      = Except.error fault.bounds := by
  decide

/-- C17, amended: for an odd kernel, equal source and target resolution and a
source at least as large as half the kernel in each dimension, `convolution`
returns, sets `target[x, y]` to the sum over all kernel cells `(kx, ky)` of
`kernel[kx, ky] * source[x + kx - half_x, y + ky - half_y]` for every `(x, y)`
with `half_x <= x < W - half_x` and `half_y <= y < H - half_y`, and leaves every
other target cell as it was (arithmetic taken exactly). -/
theorem convolution_sums {α : Type} [Semiring α] (source kernel target : array2f α)
    (hs : source.wf) (hk : kernel.wf) (ht : target.wf)
    (hpre : convolution_precondition source kernel target)
    (hW : kernel.resolution.width / 2 ≤ source.resolution.width)
    (hH : kernel.resolution.height / 2 ≤ source.resolution.height) :
    ∃ t', convolution source kernel target = Except.ok t' ∧
      (∀ x y, kernel.resolution.width / 2 ≤ x →
        x < source.resolution.width - kernel.resolution.width / 2 →
        kernel.resolution.height / 2 ≤ y →
        y < source.resolution.height - kernel.resolution.height / 2 →
        array2f_get t' x y = Except.ok
          (∑ kx in Finset.range kernel.resolution.width,
            ∑ ky in Finset.range kernel.resolution.height,
              cell_at kernel kx ky *
                cell_at source (x + kx - kernel.resolution.width / 2)
                  (y + ky - kernel.resolution.height / 2))) ∧
      (∀ x y, x < target.resolution.width → y < target.resolution.height →
        ¬ visited source.resolution.width source.resolution.height kernel.resolution.width
          kernel.resolution.height x y →
        array2f_get t' x y = array2f_get target x y) := by
  obtain ⟨t', ht', _, hc⟩ := convolution_cells source kernel target hs hk ht hpre hW hH
  refine ⟨t', ht', fun x y h1 h2 h3 h4 => ?_, fun x y hx hy hv => ?_⟩
  · have hv : visited source.resolution.width source.resolution.height
        kernel.resolution.width kernel.resolution.height x y := ⟨h1, h2, h3, h4⟩
    obtain ⟨pw, ph, _, _⟩ := hpre
    rw [hc x y (by omega) (by omega), if_pos hv]
    rfl
  · rw [hc x y hx hy, if_neg hv]

/-- C17, amended, at the 3 by 3 grid `1..9`, a kernel with 1 at its top left
and 10 at its centre, and a target of sevens: the centre becomes
`1 * 1 + 10 * 5 = 51` (the kernel is not flipped) and the corner `(0, 0)` keeps
its 7. -/
theorem convolution_sums_witness :
    ∃ t', convolution ramp_grid corner_kernel (constant_grid 3 3 7) = Except.ok t' ∧
      array2f_get t' 1 1 = Except.ok 51 ∧ array2f_get t' 0 0 = Except.ok 7 := by
  obtain ⟨t', ht', hin, hout⟩ := convolution_sums ramp_grid corner_kernel (constant_grid 3 3 7)
    (by decide) (by decide) (by decide) (by decide) (by decide) (by decide)
  refine ⟨t', ht', ?_, ?_⟩
  · rw [hin 1 1 (by decide) (by decide) (by decide) (by decide)]
    decide
  · rw [hout 0 0 (by decide) (by decide) (by decide)]
    decide

end SmokedHeart
